import Mathlib

/-!
# Verification of the lsget sandboxed virtual-filesystem engine

This file gives a shallow embedding (in Lean 4) of the core of the `lsget`
server: path translation and escape prevention (`cleanVirtual`,
`joinVirtual`, `realFromVirtual`), per-directory ignore rules
(`parseIgnoreFile`, `shouldIgnore`), the command tokenizer (`parseArgs`),
text/binary classification (`looksText`), the recursive walkers
(`findFiles`, `grepInFile`, `grepInDirectory`, `buildTree`,
`collectFilesForDownload`) and the command dispatcher (`handleExec`).

Modelling conventions, used throughout:

* A **real filesystem path** is a `List String` of path segments; the
  absolute path `/srv/files` is `["srv", "files"]`.  Go's `path.Clean` /
  `filepath.Clean` on an absolute path is the segment-level function
  `cleanSegsAbs` (drop empty and `"."` segments, let `".."` pop the
  previous segment, dropping `".."` at the root).
* A **virtual path** stays a Lean `String`, exactly as in the Go code.
* The filesystem itself is a finite tree `FNode`; file contents are
  `String`s whose UTF-8 encoding (`utf8Encode`) is the file's byte
  content, so the byte size of a file is the length of that encoding.
  File modes, modification times and symbolic links are outside the
  model: every file is a regular non-executable file.
* Machine integers (`int64` sizes, counters) are modelled as `Nat`;
  none of the modelled quantities can overflow or go negative.
* Go's `float64(printable)/float64(total) >= 0.85` comparison in
  `looksText` is modelled by the exact rational comparison
  `20 * printable ≥ 17 * total`; for the byte counts that can reach this
  code the two agree.
* Fallible operations return `Except String` / `Option`.
-/

namespace Lsget

/-! ## String primitives

Character-level implementations of the Go string primitives the code
uses (`strings.Split`, `strings.HasPrefix`, `strings.TrimSpace`,
`strings.Contains`).  They are written by structural recursion on the
character list so that every definition in this file evaluates inside
the kernel. -/

/-- Go `strings.Split(s, sep)` for a one-character separator: split at
every occurrence, keeping empty pieces (`Split("", c) = [""]`). -/
def splitChar (sep : Char) (s : String) : List String :=
  go s.data []
where
  go : List Char → List Char → List String
  | [], acc => [String.mk acc.reverse]
  | c :: rest, acc =>
      if c = sep then String.mk acc.reverse :: go rest []
      else go rest (c :: acc)

/-- Go `strings.HasPrefix`. -/
def strStartsWith (s pre : String) : Bool :=
  pre.data.isPrefixOf s.data

/-- Contiguous-sublist test, by structural recursion. -/
def listInfix (sub : List Char) : List Char → Bool
  | [] => sub.isPrefixOf []
  | c :: rest => sub.isPrefixOf (c :: rest) || listInfix sub rest

/-- Go `strings.Contains`: byte-level substring search, modelled at
character level (the two coincide on well-formed UTF-8 text because
UTF-8 is self-synchronising). -/
def strContains (s sub : String) : Bool :=
  listInfix sub.data s.data

/-- The white-space set of Go `strings.TrimSpace`, restricted to the
ASCII range (the Unicode spaces beyond ASCII are not modelled). -/
def goIsSpace (c : Char) : Bool :=
  c = ' ' ∨ c = '\t' ∨ c = '\n' ∨ c = '\r' ∨ c = '\x0b' ∨ c = '\x0c'

/-- Go `strings.TrimSpace`. -/
def goTrimSpace (s : String) : String :=
  String.mk (((s.data.dropWhile goIsSpace).reverse.dropWhile goIsSpace).reverse)

instance {ε α : Type} [DecidableEq ε] [DecidableEq α] :
    DecidableEq (Except ε α) := fun x y =>
  match x, y with
  | .ok a, .ok b =>
      if h : a = b then isTrue (by rw [h])
      else isFalse (fun hc => h (by injection hc))
  | .error a, .error b =>
      if h : a = b then isTrue (by rw [h])
      else isFalse (fun hc => h (by injection hc))
  | .ok _, .error _ => isFalse (fun hc => by injection hc)
  | .error _, .ok _ => isFalse (fun hc => by injection hc)

/-! ## Path cleaning (Go `path.Clean` on rooted paths, segment level) -/

/-- One step of Go's `path.Clean` on an absolute path, applied to one
segment: empty and `"."` segments vanish, `".."` pops the last collected
segment (at the root it is simply dropped), anything else is kept. -/
def cleanStepAbs (acc : List String) (seg : String) : List String :=
  if seg = "" ∨ seg = "." then acc
  else if seg = ".." then acc.dropLast
  else acc ++ [seg]

/-- Go `path.Clean` of an absolute path, on the list of its
slash-separated segments. -/
def cleanSegsAbs (segs : List String) : List String :=
  segs.foldl cleanStepAbs []

/-- The slash-separated segments of a string, as Go `strings.Split(s, "/")`
produces them (empty segments included). -/
def splitSlash (s : String) : List String :=
  splitChar '/' s

/-- The cleaned segments of a virtual path.  Forcing the leading `"/"`
(as `cleanVirtual` does) only contributes an empty first segment, which
`cleanSegsAbs` drops, so the leading-slash normalisation is invisible at
segment level. -/
def virtualSegs (v : String) : List String :=
  cleanSegsAbs (splitSlash v)

/-- Render cleaned segments back into a rooted virtual-path string. -/
def renderAbs (segs : List String) : String :=
  if segs = [] then "/" else "/" ++ String.intercalate "/" segs

/-- Go `cleanVirtual`: ensure a leading `"/"` and `path.Clean` the
result; empty input maps to `"/"`. -/
def cleanVirtual (p : String) : String :=
  renderAbs (virtualSegs p)

/-- Go `joinVirtual`: an absolute argument replaces the base, otherwise
the argument is appended (`path.Join`, which cleans) and the result is
re-rooted.  `path.Join base arg` for nonempty operands is
`Clean (base ++ "/" ++ arg)`, and `cleanVirtual` of an already rooted
clean path is itself, so the composition below is the source function. -/
def joinVirtual (base arg : String) : String :=
  if arg = "" then cleanVirtual base
  else if strStartsWith arg "/" then cleanVirtual arg
  else cleanVirtual ((if base = "" then "/" else base) ++ "/" ++ arg)

/-- Go `filepath.Rel(base, targ)` for absolute cleaned paths, rendered as
a string: strip the common segment prefix, climb with `".."` for each
remaining base segment, then descend into the remaining target
segments.  (An empty result renders as `"."` in Go; that case is
reached only when both paths are equal, which `realFromVirtual` has
already handled.) -/
def goRel (base targ : List String) : String :=
  let common := (List.zip base targ).takeWhile (fun p => p.1 = p.2) |>.length
  let parts := List.replicate (base.length - common) ".." ++ targ.drop common
  if parts = [] then "." else String.intercalate "/" parts

/-- A node of the exposed filesystem: a regular file with its textual
content (whose UTF-8 encoding is the byte content), or a directory with
a list of named children. -/
inductive FNode where
  | file (content : String)
  | dir (entries : List (String × FNode))

/-- One server instance: the segment list of the absolute root directory
(Go computes it with `filepath.Abs` at startup, so it is clean), the
`cat` size cap, the statistics log file path, and the (read-only)
filesystem exposed below the root. -/
structure Server where
  rootAbs : List String
  catMax : Nat
  logfile : String
  fs : FNode

/-- A root as `filepath.Abs` produces it: no empty, `"."` or `".."`
segments. -/
def goodSegs (segs : List String) : Prop :=
  ∀ s ∈ segs, s ≠ "" ∧ s ≠ "." ∧ s ≠ ".."

instance : DecidablePred goodSegs := fun segs =>
  inferInstanceAs (Decidable (∀ s ∈ segs, s ≠ "" ∧ s ≠ "." ∧ s ≠ ".."))

/-- Go `realFromVirtual`: clean the virtual path; `/` maps to the root;
otherwise join the root with the root-relative segments
(`filepath.Join`, which cleans), take the absolute path (a no-op, the
result is already absolute and clean) and accept it only if it equals
the root or its path relative to the root does not begin with `".."`. -/
def realFromVirtual (s : Server) (v : String) : Except String (List String) :=
  let segs := virtualSegs v
  if segs = [] then .ok s.rootAbs
  else
    let abs := cleanSegsAbs (s.rootAbs ++ segs)
    if abs = s.rootAbs then .ok abs
    else
      let rel2 := goRel s.rootAbs abs
      if strStartsWith rel2 ".." ∨ rel2 = ".." then .error "permission denied"
      else .ok abs

/-! ### Lemmas about path cleaning -/

theorem cleanStepAbs_good {acc : List String} {seg : String}
    (h : goodSegs acc) : goodSegs (cleanStepAbs acc seg) := by
  unfold cleanStepAbs
  split
  · exact h
  · split
    · intro s hs
      exact h s (List.dropLast_subset _ hs)
    · intro s hs
      rcases List.mem_append.mp hs with h1 | h1
      · exact h s h1
      · rcases List.mem_singleton.mp h1 with rfl
        rename_i h2 h3
        push_neg at h2
        exact ⟨h2.1, h2.2, h3⟩

theorem cleanSegsAbs_good (segs : List String) : goodSegs (cleanSegsAbs segs) := by
  unfold cleanSegsAbs
  suffices h : ∀ (l : List String) (acc : List String),
      goodSegs acc → goodSegs (l.foldl cleanStepAbs acc) by
    exact h segs [] (by intro s hs; cases hs)
  intro l
  induction l with
  | nil => intro acc h; exact h
  | cons x xs ih =>
    intro acc h
    exact ih _ (cleanStepAbs_good h)

theorem cleanSegsAbs_of_good {segs : List String} (h : goodSegs segs) :
    cleanSegsAbs segs = segs := by
  unfold cleanSegsAbs
  suffices hgen : ∀ (l : List String), goodSegs l →
      ∀ (acc : List String), l.foldl cleanStepAbs acc = acc ++ l by
    simpa using hgen segs h []
  intro l
  induction l with
  | nil => intro _ acc; simp
  | cons x xs ih =>
    intro hg acc
    have hx := hg x (List.mem_cons_self x xs)
    have hxs : goodSegs xs := fun s hs => hg s (List.mem_cons_of_mem _ hs)
    have hstep : cleanStepAbs acc x = acc ++ [x] := by
      unfold cleanStepAbs
      rw [if_neg, if_neg]
      · exact hx.2.2
      · push_neg
        exact ⟨hx.1, hx.2.1⟩
    simp only [List.foldl_cons, hstep, ih hxs]
    simp

theorem virtualSegs_good (v : String) : goodSegs (virtualSegs v) :=
  cleanSegsAbs_good _

theorem cleanSegsAbs_append_of_good {root segs : List String}
    (hr : goodSegs root) (hs : goodSegs segs) :
    cleanSegsAbs (root ++ segs) = root ++ segs := by
  apply cleanSegsAbs_of_good
  intro s hmem
  rcases List.mem_append.mp hmem with h | h
  · exact hr s h
  · exact hs s h

/-- **C1.**  Containment invariant of the path sandbox: whenever
`realFromVirtual` succeeds, the returned real path is either exactly the
configured root or has the root as a strict path ancestor; no virtual
path string can resolve outside the root. -/
theorem realFromVirtual_contained (s : Server) (v : String) (p : List String)
    (hroot : goodSegs s.rootAbs) (h : realFromVirtual s v = .ok p) :
    p = s.rootAbs ∨ (s.rootAbs <+: p ∧ p ≠ s.rootAbs) := by
  unfold realFromVirtual at h
  by_cases hseg : virtualSegs v = []
  · simp only [hseg, if_pos rfl] at h
    left
    exact (Except.ok.injEq _ _).mp h |>.symm
  · simp only [if_neg hseg] at h
    have habs : cleanSegsAbs (s.rootAbs ++ virtualSegs v) = s.rootAbs ++ virtualSegs v :=
      cleanSegsAbs_append_of_good hroot (virtualSegs_good v)
    rw [habs] at h
    by_cases heq : s.rootAbs ++ virtualSegs v = s.rootAbs
    · simp only [heq, if_pos rfl] at h
      left
      exact (Except.ok.injEq _ _).mp h |>.symm
    · simp only [if_neg heq] at h
      split at h
      · cases h
      · right
        have hp : p = s.rootAbs ++ virtualSegs v :=
          ((Except.ok.injEq _ _).mp h).symm
        subst hp
        constructor
        · exact ⟨virtualSegs v, rfl⟩
        · exact heq

/-- Witness for C1 at a concrete root and virtual path: `/a/../b` under
root `/srv/files` resolves to `/srv/files/b`, strictly inside the root. -/
theorem realFromVirtual_contained_witness :
    goodSegs ["srv", "files"] ∧
      realFromVirtual ⟨["srv", "files"], 1024, "", .file ""⟩ "/a/../b"
        = .ok ["srv", "files", "b"] ∧
      (["srv", "files", "b"] = (["srv", "files"] : List String) ∨
        ((["srv", "files"] : List String) <+: ["srv", "files", "b"] ∧
          (["srv", "files", "b"] : List String) ≠ ["srv", "files"])) := by
  refine ⟨by decide, by decide, ?_⟩
  exact realFromVirtual_contained
    ⟨["srv", "files"], 1024, "", .file ""⟩ "/a/../b" ["srv", "files", "b"]
    (by decide) (by decide)

/-- **C9.**  The containment check is coarser than containment itself:
the virtual path `/..foo` names the entry `..foo` directly under the
root — its computed real path extends the root by one segment, hence
lies strictly inside it — yet `realFromVirtual` rejects it, because the
root-relative rendering `"..foo"` begins with the two characters
`".."`. -/
theorem realFromVirtual_rejects_dotdot_name :
    realFromVirtual ⟨["srv", "files"], 1024, "", .file ""⟩ "/..foo"
        = .error "permission denied" ∧
      cleanSegsAbs (["srv", "files"] ++ virtualSegs "/..foo")
        = ["srv", "files", "..foo"] ∧
      (["srv", "files"] : List String) <+: ["srv", "files", "..foo"] ∧
      (["srv", "files", "..foo"] : List String) ≠ ["srv", "files"] := by
  refine ⟨by decide, by decide, ⟨["..foo"], rfl⟩, by decide⟩

/-! ## The command tokenizer (Go `parseArgs`)

Go iterates over the bytes of the line; every byte the loop treats
specially is ASCII, and UTF-8 continuation bytes always fall into the
"append to the current token" default case, so iterating over characters
is the same computation for well-formed input. The token buffer is kept
as a reversed character list. -/

/-- The loop body of Go `parseArgs`: `inS`/`inD` are the single and
double quote states, `buf` the (reversed) current token, `args`
the tokens produced so far.  At the end of input the final `flush`
appends the buffered token if it is nonempty *or* a quote is still
open. -/
def parseArgsGo : List Char → List Char → Bool → Bool → List String → List String
  | [], buf, inS, inD, args =>
      if buf ≠ [] ∨ inS ∨ inD then args ++ [String.mk buf.reverse] else args
  | c :: rest, buf, true, inD, args =>
      if c = '\'' then parseArgsGo rest buf false inD args
      else parseArgsGo rest (c :: buf) true inD args
  | c :: rest, buf, false, true, args =>
      if c = '"' then parseArgsGo rest buf false false args
      else if c = '\\' then
        match rest with
        | d :: rest' => parseArgsGo rest' (d :: buf) false true args
        | [] => parseArgsGo [] (c :: buf) false true args
      else parseArgsGo rest (c :: buf) false true args
  | c :: rest, buf, false, false, args =>
      if c = ' ' ∨ c = '\t' ∨ c = '\n' then
        if buf ≠ [] then parseArgsGo rest [] false false (args ++ [String.mk buf.reverse])
        else parseArgsGo rest buf false false args
      else if c = '\'' then parseArgsGo rest buf true false args
      else if c = '"' then parseArgsGo rest buf false true args
      else parseArgsGo rest (c :: buf) false false args

/-- Go `parseArgs`: tokenize a command line with quoting. -/
def parseArgs (line : String) : List String :=
  parseArgsGo line.data [] false false []

/-- **C7.**  The tokenizer splits on unquoted whitespace, keeps single-
and double-quoted segments inside one token, honors backslash escapes
only inside double quotes (a backslash is a literal character outside
them), and still flushes the accumulated token at an unterminated
quote; in particular `ls -a "my file.txt"` tokenizes to exactly
`["ls", "-a", "my file.txt"]`. -/
theorem parseArgs_spec :
    parseArgs "ls -a \"my file.txt\"" = ["ls", "-a", "my file.txt"] ∧
      parseArgs "a b\tc" = ["a", "b", "c"] ∧
      parseArgs "a'b c'd" = ["ab cd"] ∧
      parseArgs "a\"b c\"d" = ["ab cd"] ∧
      parseArgs "\"a\\\"b\"" = ["a\"b"] ∧
      parseArgs "a\\ b" = ["a\\", "b"] ∧
      parseArgs "'a\\nb'" = ["a\\nb"] ∧
      parseArgs "ab \"cd" = ["ab", "cd"] := by
  refine ⟨by decide, by decide, by decide, by decide, by decide, by decide,
    by decide, by decide⟩

/-! ## Text/binary classification (Go `looksText`, `utf8.Valid`) -/

/-- A UTF-8 continuation byte. -/
def utf8Cont (b : Nat) : Bool :=
  0x80 ≤ b ∧ b ≤ 0xBF

/-- Go `utf8.Valid` on a byte sequence: well-formed UTF-8 per RFC 3629
(no overlong encodings, no surrogates, nothing above `U+10FFFF`),
decoded rune by rune exactly as Go's accept-range table does. -/
def utf8Valid : List Nat → Bool
  | [] => true
  | b :: rest =>
    if b < 0x80 then utf8Valid rest
    else if 0xC2 ≤ b ∧ b ≤ 0xDF then
      match rest with
      | b1 :: r => utf8Cont b1 && utf8Valid r
      | [] => false
    else if 0xE0 ≤ b ∧ b ≤ 0xEF then
      match rest with
      | b1 :: b2 :: r =>
          (if b = 0xE0 then decide (0xA0 ≤ b1 ∧ b1 ≤ 0xBF)
           else if b = 0xED then decide (0x80 ≤ b1 ∧ b1 ≤ 0x9F)
           else utf8Cont b1) && utf8Cont b2 && utf8Valid r
      | _ => false
    else if 0xF0 ≤ b ∧ b ≤ 0xF4 then
      match rest with
      | b1 :: b2 :: b3 :: r =>
          (if b = 0xF0 then decide (0x90 ≤ b1 ∧ b1 ≤ 0xBF)
           else if b = 0xF4 then decide (0x80 ≤ b1 ∧ b1 ≤ 0x8F)
           else utf8Cont b1) && utf8Cont b2 && utf8Cont b3 && utf8Valid r
      | _ => false
    else false

/-- A byte Go `looksText` counts as printable: tab, newline, carriage
return, or printable ASCII 32–126. -/
def printableByte (b : Nat) : Bool :=
  b = 9 ∨ b = 10 ∨ b = 13 ∨ (32 ≤ b ∧ b ≤ 126)

/-- Go `looksText`: reject on a NUL byte; accept valid UTF-8; otherwise
accept iff the printable fraction is at least 0.85.  The byte-counting
loop is kept as in the source (`printable` and `total` accumulators);
the `float64` division-and-compare is modelled by the exact rational
comparison `20 * printable ≥ 17 * total`. -/
def looksText (sample : List Nat) : Bool :=
  if sample.contains 0 then false
  else if utf8Valid sample then true
  else
    let counts := sample.foldl
      (fun (pt : Nat × Nat) b =>
        (if printableByte b then pt.1 + 1 else pt.1, pt.2 + 1)) (0, 0)
    if counts.2 = 0 then true
    else decide (20 * counts.1 ≥ 17 * counts.2)

theorem looksText_counts (sample : List Nat) (p t : Nat) :
    sample.foldl
        (fun (pt : Nat × Nat) b =>
          (if printableByte b then pt.1 + 1 else pt.1, pt.2 + 1)) (p, t)
      = (p + sample.countP printableByte, t + sample.length) := by
  induction sample generalizing p t with
  | nil => simp
  | cons b rest ih =>
    simp only [List.foldl_cons, List.countP_cons, List.length_cons]
    by_cases hb : printableByte b
    · rw [if_pos hb, ih]
      simp [hb]
      omega
    · rw [if_neg hb, ih]
      simp [hb]
      omega

/-- **C8.**  `looksText` returns `true` exactly when the sample has no
NUL byte and is either valid UTF-8 or has a fraction of at least 0.85
printable (tab/newline/carriage-return/ASCII 32–126) bytes; in
particular it returns `false` whenever a NUL byte is present. -/
theorem looksText_spec (sample : List Nat) :
    looksText sample = true ↔
      (0 ∉ sample ∧
        (utf8Valid sample = true ∨
          20 * sample.countP printableByte ≥ 17 * sample.length)) := by
  unfold looksText
  by_cases hnul : sample.contains 0
  · rw [if_pos hnul]
    have hmem : 0 ∈ sample := by simpa using hnul
    simp [hmem]
  · rw [if_neg hnul]
    have hmem : 0 ∉ sample := by simpa using hnul
    by_cases hv : utf8Valid sample = true
    · simp [hv, hmem]
    · simp only [hv, if_false, if_neg (fun h => hv h)]
      rw [looksText_counts sample 0 0]
      have hne : sample.length ≠ 0 := by
        intro h0
        rcases List.length_eq_zero.mp h0 with rfl
        exact hv rfl
      simp only [Nat.zero_add]
      rw [if_neg hne]
      simp [hmem, hv]

/-! ## Glob matching (Go `filepath.Match`)

`filepath.Match` on Linux (where the separator is `/` and backslash
escapes are active) is the same function as `path.Match`.  The model
separates pattern validity (Go reports `ErrBadPattern` exactly for
malformed patterns) from matching, and implements matching by complete
backtracking at each `*`; Go's chunk-at-a-time greedy scan is equivalent
because every chunk after the first is preceded by a `*` and chunks
consume a fixed number of characters. -/

/-- Go `getEsc`: read one (possibly backslash-escaped) character of a
character class.  Fails on a bare `-` or `]`, on a dangling backslash,
and when nothing follows (the class still has to be closed). -/
def classEsc : List Char → Option (Char × List Char)
  | [] => none
  | c :: p =>
    if c = '-' ∨ c = ']' then none
    else if c = '\\' then
      match p with
      | [] => none
      | d :: p' => if p' = [] then none else some (d, p')
    else if p = [] then none else some (c, p)

/-- The range loop of Go `matchChunk` on a `[...]` class, after the
optional `^`: `m` is whether some range matched the character `r`, `n`
the number of ranges read; a `]` with at least one range closes the
class, anything else must parse as `lo` or `lo-hi`.  The recursion
consumes at least one pattern character per step, so the structural
`fuel` argument (always supplied as the pattern length plus one) never
runs out. -/
def matchClass (r : Char) : Nat → List Char → Bool → Nat →
    Option (Bool × List Char)
  | 0, _, _, _ => none
  | fuel + 1, p, m, n =>
    if p.head? = some ']' ∧ n > 0 then some (m, p.tail)
    else
      match classEsc p with
      | none => none
      | some (lo, p1) =>
        if p1.head? = some '-' then
          match classEsc p1.tail with
          | none => none
          | some (hi, p2) =>
              matchClass r fuel p2 (m || decide (lo ≤ r ∧ r ≤ hi)) (n + 1)
        else
          matchClass r fuel p1 (m || decide (lo ≤ r ∧ r ≤ lo)) (n + 1)

/-- Core of Go `filepath.Match` for a syntactically valid pattern: `*`
matches any run of non-separator characters (implemented by complete
backtracking, equivalent to Go's greedy chunk scan because every chunk
after the first is preceded by a `*` and chunks consume a fixed number
of characters), `?` one non-separator character, `[...]`/`[^...]` one
character against the class ranges, `\\c` and plain characters match
literally.  Every recursive call shrinks the combined length of pattern
and name, so the structural `fuel` (supplied as that combined length
plus one) never runs out. -/
def goMatchList : Nat → List Char → List Char → Bool
  | 0, _, _ => false
  | fuel + 1, pat, name =>
    match pat, name with
    | [], [] => true
    | [], _ :: _ => false
    | '*' :: p, n =>
        goMatchList fuel p n ||
          (match n with
           | [] => false
           | c :: n' => if c = '/' then false else goMatchList fuel ('*' :: p) n')
    | '?' :: p, n =>
        (match n with
         | [] => false
         | c :: n' => if c = '/' then false else goMatchList fuel p n')
    | '[' :: p, n =>
        (match n with
         | [] => false
         | c :: n' =>
            let neg : Bool := decide (p.head? = some '^')
            let p1 := if neg then p.tail else p
            match matchClass c (p1.length + 1) p1 false 0 with
            | none => false
            | some (m, rest) => (m != neg) && goMatchList fuel rest n')
    | '\\' :: p, n =>
        (match p, n with
         | d :: p', c :: n' => if c = d then goMatchList fuel p' n' else false
         | _, _ => false)
    | c :: p, n =>
        (match n with
         | [] => false
         | d :: n' => if c = d then goMatchList fuel p n' else false)

/-- Pattern-validity scan: Go reports `ErrBadPattern` for a dangling
backslash or a malformed character class.  (Go discovers the error
lazily while matching and can miss a malformed suffix when an earlier
chunk already failed without a star; the claims never involve malformed
patterns, so validity is modelled as a property of the pattern alone.)
Each step consumes at least one pattern character, so the structural
`fuel` (the pattern length plus one) never runs out. -/
def patternValid : Nat → List Char → Bool
  | 0, _ => false
  | fuel + 1, p =>
    match p with
    | [] => true
    | '\\' :: q =>
        (match q with
         | [] => false
         | _ :: q' => patternValid fuel q')
    | '[' :: q =>
        let p1 := if decide (q.head? = some '^') then q.tail else q
        (match matchClass 'a' (p1.length + 1) p1 false 0 with
         | none => false
         | some (_, rest) => patternValid fuel rest)
    | _ :: q => patternValid fuel q

/-- Go `filepath.Match` (Linux): `none` models `ErrBadPattern`,
`some b` a successful call answering `b`. -/
def goMatch (pattern name : String) : Option Bool :=
  if patternValid (pattern.data.length + 1) pattern.data then
    some (goMatchList (pattern.data.length + name.data.length + 1)
      pattern.data name.data)
  else none


/-! ## Bytes, the filesystem model, and directory reading -/

/-- UTF-8 encoding of one scalar value (standard RFC 3629 layout). -/
def utf8EncodeChar (c : Char) : List Nat :=
  let n := c.toNat
  if n < 0x80 then [n]
  else if n < 0x800 then [0xC0 + n / 64, 0x80 + n % 64]
  else if n < 0x10000 then [0xE0 + n / 4096, 0x80 + n / 64 % 64, 0x80 + n % 64]
  else [0xF0 + n / 262144, 0x80 + n / 4096 % 64, 0x80 + n / 64 % 64, 0x80 + n % 64]

/-- UTF-8 encoding of a character sequence. -/
def utf8Encode (l : List Char) : List Nat :=
  l.foldr (fun c acc => utf8EncodeChar c ++ acc) []

/-- The byte content of a file whose text is `s`. -/
def strBytes (s : String) : List Nat :=
  utf8Encode s.data

/-- The byte size of a file (Go `info.Size()`). -/
def byteLen (s : String) : Nat :=
  (strBytes s).length

/-- `FNode.isDir`: Go `info.IsDir()`. -/
def FNode.isDir : FNode → Bool
  | .dir _ => true
  | .file _ => false

mutual

/-- Navigate from a node along relative path segments (the model of
`os.Stat`/`os.Open` beneath a known node). -/
def lookupNode : FNode → List String → Option FNode
  | node, [] => some node
  | .file _, _ :: _ => none
  | .dir entries, name :: rest => lookupEntries entries name rest

/-- First entry with the given name, then continue navigating. -/
def lookupEntries : List (String × FNode) → String → List String → Option FNode
  | [], _, _ => none
  | (n, child) :: es, name, rest =>
      if n = name then lookupNode child rest else lookupEntries es name rest

end

/-- The model of `os.Stat` on an absolute real path: every path the
engine produces is the root or an extension of it, so the OS namespace
is modelled only beneath the root directory. -/
def statReal (s : Server) (abs : List String) : Option FNode :=
  if s.rootAbs.isPrefixOf abs then lookupNode s.fs (abs.drop s.rootAbs.length)
  else none

/-- Lexicographic strict order on character lists; for valid UTF-8 this
is exactly Go's byte-wise `<` on strings (UTF-8 preserves code-point
order). -/
def listLexLT : List Char → List Char → Bool
  | [], [] => false
  | [], _ :: _ => true
  | _ :: _, [] => false
  | a :: as, b :: bs => if a < b then true else if b < a then false else listLexLT as bs

/-- Go `a <= b` on strings. -/
def strLE (a b : String) : Bool :=
  !(listLexLT b.data a.data)

/-- Insertion step of the sorting model. -/
def insertLE {α : Type} (le : α → α → Bool) (x : α) : List α → List α
  | [] => [x]
  | y :: l => if le x y then x :: y :: l else y :: insertLE le x l

/-- Sorting, modelled by insertion sort.  The orders used by the engine
(`sort.Strings`, `os.ReadDir` name order, the tree's directories-first
order) are total, so any correct sort produces the same list Go's
unstable sort does on distinct keys; entries with fully equal keys are
interchangeable. -/
def sortLE {α : Type} (le : α → α → Bool) : List α → List α
  | [] => []
  | x :: l => insertLE le x (sortLE le l)

theorem mem_insertLE {α : Type} (le : α → α → Bool) (x a : α) (l : List α) :
    a ∈ insertLE le x l ↔ a = x ∨ a ∈ l := by
  induction l with
  | nil => simp [insertLE]
  | cons y t ih =>
    simp only [insertLE]
    split
    · simp
    · simp [ih]
      tauto

theorem mem_sortLE {α : Type} (le : α → α → Bool) (a : α) (l : List α) :
    a ∈ sortLE le l ↔ a ∈ l := by
  induction l with
  | nil => simp [sortLE]
  | cons y t ih => simp [sortLE, mem_insertLE, ih]

/-- Go `os.ReadDir` returns the directory entries sorted by name. -/
def readDirSorted (entries : List (String × FNode)) : List (String × FNode) :=
  sortLE (fun a b => strLE a.1 b.1) entries

theorem mem_readDirSorted (a : String × FNode) (entries : List (String × FNode)) :
    a ∈ readDirSorted entries ↔ a ∈ entries :=
  mem_sortLE _ a entries

mutual

/-- A structural weight on filesystem nodes, used as recursion fuel for
the tree walkers: it strictly exceeds the weight of every descendant. -/
def FNode.weight : FNode → Nat
  | .file _ => 1
  | .dir entries => 1 + weightList entries

def weightList : List (String × FNode) → Nat
  | [] => 0
  | e :: es => FNode.weight e.2 + 1 + weightList es

end

theorem weight_lt_of_mem {nm : String} {c : FNode}
    {entries : List (String × FNode)} (h : (nm, c) ∈ entries) :
    c.weight < (FNode.dir entries).weight := by
  induction entries with
  | nil => cases h
  | cons e es ih =>
    rcases List.mem_cons.mp h with h1 | h1
    · rw [← h1]
      simp [FNode.weight, weightList]
      omega
    · have := ih h1
      simp [FNode.weight, weightList] at this ⊢
      omega

theorem weight_pos (node : FNode) : 0 < node.weight := by
  cases node <;> simp [FNode.weight]

/-! ## Line scanning and ignore rules -/

/-- `bufio.ScanLines` drops one trailing carriage return from a line. -/
def dropCR (l : String) : String :=
  if l.data.getLast? = some '\r' then String.mk l.data.dropLast else l

/-- The lines a `bufio.Scanner` with `ScanLines` yields: split at every
newline, with no empty token after a final newline, and a trailing `\r`
stripped from each line. -/
def scanLines (s : String) : List String :=
  let pieces := splitChar '\n' s
  let pieces := if pieces.getLast? = some "" then pieces.dropLast else pieces
  pieces.map dropCR

/-- Go `parseIgnoreFile` applied to the `.lsgetignore` file of a real
directory: each line is trimmed, blank lines and `#` comments are
skipped; a missing rule file (or one that is not a regular file, whose
read fails) contributes no patterns. -/
def parseIgnoreFile (s : Server) (realDir : List String) : List String :=
  match statReal s (realDir ++ [".lsgetignore"]) with
  | some (.file content) =>
      ((scanLines content).map goTrimSpace).filter
        (fun l => !(l = "" || strStartsWith l "#"))
  | _ => []

/-- One level of Go `shouldIgnore`: test the candidate against every
pattern of the rule file in `currentDir` — by name, by the path of the
candidate relative to the rule file's directory, and (when that
relative path crosses a directory) by its base name. -/
def ignoreMatchAt (s : Server) (currentDir realPath : List String)
    (name : String) : Bool :=
  (parseIgnoreFile s currentDir).any fun pattern =>
    goMatch pattern name = some true ||
      (let relSegs := realPath.drop currentDir.length
       let relPath := String.intercalate "/" relSegs
       goMatch pattern relPath = some true ||
         (strContains relPath "/" &&
           goMatch pattern (relSegs.getLast?.getD "") = some true))

/-- The upward walk of Go `shouldIgnore`, on the *reversed* current
directory (so that moving to the parent is structural): starting at a
directory, stop as soon as the walk leaves the root (`filepath.Rel`
from the root would begin with `".."`), otherwise test this level's
rule file and continue with the parent.  The parent of the filesystem
root (`currentDir = []`) is itself, which ends the walk after that
level is tested. -/
def shouldIgnoreGo (s : Server) (realPath : List String) (name : String) :
    List String → Bool
  | [] =>
      if ¬ s.rootAbs.isPrefixOf ([] : List String) then false
      else if ignoreMatchAt s [] realPath name then true
      else false
  | a :: rest =>
      let currentDir := (a :: rest).reverse
      if ¬ s.rootAbs.isPrefixOf currentDir then false
      else if ignoreMatchAt s currentDir realPath name then true
      else shouldIgnoreGo s realPath name rest

/-- Go `shouldIgnore`: walk from the directory containing `realPath` up
to the root, testing each level's `.lsgetignore` patterns. -/
def shouldIgnore (s : Server) (realPath : List String) (name : String) : Bool :=
  shouldIgnoreGo s realPath name realPath.dropLast.reverse

/-! ## ANSI colors and file colorization -/

def colorReset : String := "\x1b[0m"
def colorRed : String := "\x1b[31m"
def colorGreen : String := "\x1b[32m"
def colorYellow : String := "\x1b[33m"
def colorBlue : String := "\x1b[34m"
def colorMagenta : String := "\x1b[35m"
def colorCyan : String := "\x1b[36m"
def colorWhite : String := "\x1b[37m"
def colorBrightBlack : String := "\x1b[90m"
def colorBrightGreen : String := "\x1b[92m"
def colorBrightYellow : String := "\x1b[93m"
def colorBrightCyan : String := "\x1b[96m"
def colorBold : String := "\x1b[1m"

/-- ASCII lowering; Go `strings.ToLower` restricted to ASCII (the
Unicode case table beyond ASCII is not modelled). -/
def charToLower (c : Char) : Char :=
  if 'A' ≤ c ∧ c ≤ 'Z' then Char.ofNat (c.toNat + 32) else c

def strToLower (x : String) : String :=
  String.mk (x.data.map charToLower)

/-- Go `filepath.Ext`: the suffix from the final dot (names here never
contain a path separator). -/
def goExt (name : String) : String :=
  if name.data.contains '.' then
    String.mk ('.' :: (name.data.reverse.takeWhile (fun c => c ≠ '.')).reverse)
  else ""

/-- Go `getFileColor` for the node kinds in the model: directories are
bold blue; every modelled file is a regular non-executable file, colored
by lower-cased extension. -/
def getFileColor (isDir : Bool) (name : String) : String :=
  if isDir then colorBlue ++ colorBold
  else
    let ext := strToLower (goExt name)
    if ext ∈ [".tar", ".tgz", ".tar.gz", ".tar.bz2", ".tar.xz", ".zip",
        ".rar", ".7z", ".gz", ".bz2", ".xz"] then colorRed
    else if ext ∈ [".jpg", ".jpeg", ".png", ".gif", ".bmp", ".svg", ".ico",
        ".tiff", ".webp"] then colorMagenta
    else if ext ∈ [".mp3", ".wav", ".flac", ".aac", ".ogg", ".wma",
        ".m4a"] then colorGreen
    else if ext ∈ [".mp4", ".avi", ".mkv", ".mov", ".wmv", ".flv", ".webm",
        ".m4v"] then colorBrightGreen
    else if ext ∈ [".pdf", ".doc", ".docx", ".txt", ".md", ".rst",
        ".tex"] then colorWhite
    else if ext ∈ [".py", ".js", ".ts", ".jsx", ".tsx", ".go", ".rs", ".cpp",
        ".c", ".h", ".java", ".kt", ".swift"] then colorYellow
    else if ext ∈ [".html", ".htm", ".css", ".scss", ".sass", ".xml", ".json",
        ".yaml", ".yml"] then colorBrightYellow
    else if ext ∈ [".sh", ".bash", ".zsh", ".fish", ".ps1", ".bat",
        ".cmd"] then colorGreen
    else if ext ∈ [".sql", ".db", ".sqlite", ".sqlite3"] then colorBrightCyan
    else if ext ∈ [".log", ".tmp", ".temp", ".bak", ".backup"] then
      colorBrightBlack
    else colorReset

/-- Go `colorizeName`: wrap a name in its color, with a trailing `/` for
directories. -/
def colorizeName (isDir : Bool) (name : String) : String :=
  let color := getFileColor isDir name
  if isDir then color ++ name ++ "/" ++ colorReset
  else color ++ name ++ colorReset

/-! ## Relative cleaning, `filepath.Dir` / `Base` / `Join` -/

/-- One step of Go `path.Clean` on a relative path: as in the absolute
case, except that `".."` survives at the front. -/
def cleanStepRel (acc : List String) (seg : String) : List String :=
  if seg = "" ∨ seg = "." then acc
  else if seg = ".." then
    if acc = [] ∨ acc.getLast? = some ".." then acc ++ [".."] else acc.dropLast
  else acc ++ [seg]

/-- Go `path.Clean` / `filepath.Clean` (Linux) on an arbitrary path
string. -/
def goClean (p : String) : String :=
  if strStartsWith p "/" then renderAbs (cleanSegsAbs (splitSlash p))
  else
    let segs := (splitSlash p).foldl cleanStepRel []
    if segs = [] then "." else String.intercalate "/" segs

/-- Go `filepath.Base` of an absolute segment path: the last segment,
`"/"` for the filesystem root itself. -/
def realBase (p : List String) : String :=
  (p.getLast?).getD "/"

/-- Go `filepath.Base` on a path string. -/
def goFilepathBase (p : String) : String :=
  if p = "" then "."
  else
    let stripped := (p.data.reverse.dropWhile (fun c => c = '/')).reverse
    if stripped = [] then "/"
    else String.mk (stripped.reverse.takeWhile (fun c => c ≠ '/')).reverse

/-- Go `filepath.Dir` on a path string: everything up to (and with) the
final separator, cleaned; `"."` when there is no separator. -/
def goFilepathDir (p : String) : String :=
  if p.data.contains '/' then
    goClean (String.mk (p.data.reverse.dropWhile (fun c => c ≠ '/')).reverse)
  else "."

/-- Go `filepath.Join` of two operands (empty operands are skipped, the
result is cleaned). -/
def goJoin (a b : String) : String :=
  if a = "" then goClean b
  else if b = "" then goClean a
  else goClean (a ++ "/" ++ b)

/-- Go `strings.ContainsAny`. -/
def strContainsAny (s chars : String) : Bool :=
  s.data.any (fun c => chars.data.contains c)

/-- Go `path.Join(virtualPath, name)` as used by the walkers: both
operands nonempty, so this is `Clean` of their slash-joined
concatenation, which `cleanVirtual` computes for the rooted
`virtualPath` the walkers carry. -/
def vjoin (vp name : String) : String :=
  cleanVirtual (vp ++ "/" ++ name)

/-! ## find -/

/-- Go `findFiles`: one directory level.  For each entry of the sorted
directory listing: skip hidden names unless the pattern itself starts
with a dot, skip ignored entries, skip entries on a bad pattern; a
name-matched entry passing the type filter contributes its colorized
virtual path; directories are searched recursively (even when not
matched themselves).  The per-entry work is expressed as `flatMap` over
the attached entry list; the Go loop appends to `results` in the same
order.  (`entry.Info()` never fails in the model.) -/
def findFilesF (s : Server) :
    Nat → FNode → List String → String → String → String → List String
  | 0, _, _, _, _, _ => []
  | fuel + 1, node, realPath, virtualPath, pattern, typeFilter =>
    match node with
    | .file _ => []
    | .dir entries =>
        (readDirSorted entries).flatMap
          (fun e =>
            let name := e.1
            let child := e.2
            if strStartsWith name "." && !strStartsWith pattern "." then []
            else
              let realEntryPath := realPath ++ [name]
              let virtualEntryPath := vjoin virtualPath name
              if shouldIgnore s realEntryPath name then []
              else
                match goMatch pattern name with
                | none => []
                | some matched =>
                  (if matched &&
                      (match typeFilter with
                       | "f" => !child.isDir
                       | "d" => child.isDir
                       | _ => true) then
                    [colorizeName child.isDir virtualEntryPath]
                   else [])
                  ++ (if child.isDir then
                        findFilesF s fuel child realEntryPath virtualEntryPath
                          pattern typeFilter
                      else []))

/-- Go `findFiles`, with the recursion fuel fixed at the node's weight,
which strictly bounds the subtree depth. -/
def findFiles (s : Server) (node : FNode) (realPath : List String)
    (virtualPath pattern typeFilter : String) : List String :=
  findFilesF s node.weight node realPath virtualPath pattern typeFilter

/-! ## grep -/

/-- Go `strings.Index` (character level): position of the first
occurrence of `sub`, `none` when absent. -/
def firstInfixIdx (sub : List Char) : List Char → Option Nat
  | [] => if sub.isPrefixOf [] then some 0 else none
  | c :: t =>
      if sub.isPrefixOf (c :: t) then some 0
      else (firstInfixIdx sub t).map (· + 1)

/-- Go `strings.Replace` with an empty pattern: the replacement is
inserted before every character and at the end. -/
def interleave (rep : List Char) : List Char → List Char
  | [] => rep
  | c :: t => rep ++ c :: interleave rep t

/-- Replacement loop of Go `strings.ReplaceAll` for a nonempty pattern:
replace non-overlapping occurrences left to right.  Each step consumes
at least one character, so the structural `fuel` (the input length plus
one) never runs out. -/
def replaceAllGo (pat rep : List Char) : Nat → List Char → List Char
  | 0, l => l
  | _ + 1, [] => []
  | fuel + 1, c :: t =>
      if pat.isPrefixOf (c :: t) then
        rep ++ replaceAllGo pat rep fuel (t.drop (pat.length - 1))
      else c :: replaceAllGo pat rep fuel t

/-- Go `strings.ReplaceAll`. -/
def replaceAll (l pat rep : List Char) : List Char :=
  if pat = [] then interleave rep l else replaceAllGo pat rep (l.length + 1) l

/-- The match-highlighting step of Go `grepInFile`: in case-insensitive
mode the first occurrence in the lowered line is located and the
corresponding span of the original line is wrapped; otherwise every
occurrence of the pattern is wrapped via `ReplaceAll`.  (Go slices
bytes; the model slices characters, which coincides because the modelled
lowering maps one character to one character.) -/
def highlightLine (line pattern searchPattern : String)
    (ignoreCase : Bool) : String :=
  if ignoreCase then
    match firstInfixIdx searchPattern.data (strToLower line).data with
    | some st =>
        String.mk (line.data.take st) ++ colorYellow ++ colorBold ++
          String.mk ((line.data.drop st).take searchPattern.data.length) ++
          colorReset ++ String.mk (line.data.drop (st + searchPattern.data.length))
    | none => line
  else
    String.mk (replaceAll line.data pattern.data
      (colorYellow ++ colorBold ++ pattern ++ colorReset).data)

/-- The scanner loop of Go `grepInFile`: one result per matching line,
with optional filename and line-number prefixes. -/
def grepLines (virtualPath pattern searchPattern : String)
    (ignoreCase showLineNumbers showFilename : Bool) :
    List String → Nat → List String
  | [], _ => []
  | line :: rest, lineNum =>
      let searchLine := if ignoreCase then strToLower line else line
      (if strContains searchLine searchPattern then
        [(if showFilename then colorCyan ++ virtualPath ++ colorReset ++ ":"
          else "") ++
          (if showLineNumbers then
            colorGreen ++ toString lineNum ++ colorReset ++ ":"
          else "") ++
          highlightLine line pattern searchPattern ignoreCase]
       else []) ++
        grepLines virtualPath pattern searchPattern ignoreCase showLineNumbers
          showFilename rest (lineNum + 1)

/-- Go `grepInFile` on a regular file's content: files larger than the
fixed 10 MiB cap are rejected before any content is read; a 4096-byte
sample that does not look like text makes the file silently produce no
matches; otherwise every line is searched, lowering both pattern and
line in case-insensitive mode. -/
def grepInFile (content virtualPath pattern : String)
    (ignoreCase showLineNumbers showFilename : Bool) :
    Except String (List String) :=
  if byteLen content > 10 * 1024 * 1024 then .error "file too large"
  else if !looksText ((strBytes content).take 4096) then .ok []
  else
    let searchPattern := if ignoreCase then strToLower pattern else pattern
    .ok (grepLines virtualPath pattern searchPattern ignoreCase
      showLineNumbers showFilename (scanLines content) 1)

/-- Go `grepInDirectory`: recursive walk skipping hidden and ignored
entries; per-entry errors are swallowed (`continue`), so a failing file
or subdirectory contributes nothing and the walk continues. -/
def grepInDirectoryF (s : Server) (pattern : String)
    (ignoreCase showLineNumbers : Bool) :
    Nat → FNode → List String → String → Except String (List String)
  | 0, _, _, _ => .ok []
  | fuel + 1, node, realPath, virtualPath =>
    match node with
    | .file _ => .error "readdir error"
    | .dir entries =>
        .ok ((readDirSorted entries).flatMap
          (fun e =>
            let name := e.1
            let child := e.2
            if strStartsWith name "." then []
            else
              let realEntryPath := realPath ++ [name]
              let virtualEntryPath := vjoin virtualPath name
              if shouldIgnore s realEntryPath name then []
              else
                match child with
                | .dir _ =>
                    (match grepInDirectoryF s pattern ignoreCase showLineNumbers
                        fuel child realEntryPath virtualEntryPath with
                     | .ok rs => rs
                     | .error _ => [])
                | .file content =>
                    (match grepInFile content virtualEntryPath pattern ignoreCase
                        showLineNumbers true with
                     | .ok rs => rs
                     | .error _ => [])))

/-- Go `grepInDirectory`, with the recursion fuel fixed at the node's
weight, which strictly bounds the subtree depth. -/
def grepInDirectory (s : Server) (node : FNode) (realPath : List String)
    (virtualPath pattern : String) (ignoreCase showLineNumbers : Bool) :
    Except String (List String) :=
  grepInDirectoryF s pattern ignoreCase showLineNumbers node.weight node
    realPath virtualPath

/-! ## Archive collection -/

/-- Go `fileInfo` (the archive item): virtual path as recorded by the
collector, real path, and the name under which the file enters the
archive. -/
structure GoFileInfo where
  virtualPath : String
  realPath : List String
  relativePath : String
  deriving DecidableEq

/-- The `filepath.Walk` visit of Go `collectFilesFromDirectory`,
starting from the walk root `rootReal`: directories contribute nothing
but are descended into (their entries in name order); a file is skipped
when ignored or hidden, and otherwise enters the archive under
`baseDir/<path relative to the walk root>`. -/
def walkCollectF (s : Server) (baseDir : String) (rootReal : List String) :
    Nat → FNode → List String → List GoFileInfo
  | 0, _, _ => []
  | _ + 1, .file _, path =>
      let base := realBase path
      if shouldIgnore s path base then []
      else if strStartsWith base "." then []
      else
        let relPath := String.intercalate "/" (path.drop rootReal.length)
        let archivePath := goJoin baseDir relPath
        [⟨renderAbs path, path, archivePath⟩]
  | fuel + 1, .dir entries, path =>
      (readDirSorted entries).flatMap
        (fun e => walkCollectF s baseDir rootReal fuel e.2 (path ++ [e.1]))

/-- The walk of Go `collectFilesFromDirectory`, with the recursion fuel
fixed at the node's weight, which strictly bounds the subtree depth. -/
def walkCollect (s : Server) (baseDir : String) (rootReal : List String)
    (node : FNode) (path : List String) : List GoFileInfo :=
  walkCollectF s baseDir rootReal node.weight node path

/-- Go `collectFilesFromDirectory`: walk the directory recursively.  A
missing walk root produces a single errored visit which the callback
skips, so the function never fails.  (The Go signature's `virtualDir`
parameter is unused in its body; the archive item's `virtualPath` field
receives the walker's *real* path string, as in the source.) -/
def collectFilesFromDirectory (s : Server) (virtualDir : String)
    (realDir : List String) : Except String (List GoFileInfo) :=
  match statReal s realDir with
  | none => .ok []
  | some node => .ok (walkCollect s (realBase realDir) realDir node realDir)

/-- Go `collectFilesForDownload`: `"."` collects the whole current
directory recursively; a wildcard pattern matches non-directory entries
of one directory level (the level named by the pattern's directory part,
or the current directory), skipping ignored files; anything else is a
literal name — a directory collects recursively, a file collects
itself. -/
def collectFilesForDownload (s : Server) (cwd pattern : String) :
    Except String (List GoFileInfo) :=
  if pattern = "." then
    match realFromVirtual s cwd with
    | .error e => .error e
    | .ok realCwd => collectFilesFromDirectory s cwd realCwd
  else if strContainsAny pattern "*?[" then
    match realFromVirtual s cwd with
    | .error e => .error e
    | .ok realCwd =>
      if strContains pattern "/" then
        let dir := goFilepathDir pattern
        let filePattern := goFilepathBase pattern
        let vDir := joinVirtual cwd dir
        match realFromVirtual s vDir with
        | .error e => .error e
        | .ok rDir =>
          match statReal s rDir with
          | some (.dir entries) =>
              .ok ((readDirSorted entries).filterMap (fun e =>
                if e.2.isDir then none
                else if goMatch filePattern e.1 ≠ some true then none
                else if shouldIgnore s (rDir ++ [e.1]) e.1 then none
                else some ⟨vjoin vDir e.1, rDir ++ [e.1], e.1⟩))
          | _ => .error "readdir error"
      else
        match statReal s realCwd with
        | some (.dir entries) =>
            .ok ((readDirSorted entries).filterMap (fun e =>
              if e.2.isDir then none
              else if goMatch pattern e.1 ≠ some true then none
              else if shouldIgnore s (realCwd ++ [e.1]) e.1 then none
              else some ⟨vjoin cwd e.1, realCwd ++ [e.1], e.1⟩))
        | _ => .error "readdir error"
  else
    match realFromVirtual s (joinVirtual cwd pattern) with
    | .error _ => .error "permission denied"
    | .ok rp =>
      match statReal s rp with
      | none => .error "no such file"
      | some (.dir _) => collectFilesFromDirectory s (joinVirtual cwd pattern) rp
      | some (.file _) =>
          .ok [⟨joinVirtual cwd pattern, rp, realBase rp⟩]

/-! ## tree -/

/-- The `sort.Slice` comparison of Go `buildTree`: directories before
files, names ascending within each group. -/
def treeLess (a b : String × FNode) : Bool :=
  if a.2.isDir = b.2.isDir then listLexLT a.1.data b.1.data
  else a.2.isDir

/-- Go `buildTree`: returns the rendered subtree (the text this call
appends to the builder) together with the directory and file counts.
Entries are filtered for hiddenness, sorted directories-first, and
rendered with box-drawing connectors; recursion stops at the depth
bound.  A non-directory node renders nothing (`os.ReadDir` fails and Go
returns `0, 0`).  Note that, unlike every other walker, `buildTree`
never consults the ignore rules. -/
def buildTreeF :
    Nat → FNode → String → Bool → Int → Nat → String × Nat × Nat
  | 0, _, _, _, _, _ => ("", 0, 0)
  | fuel + 1, node, pref, showHidden, maxDepth, currentDepth =>
    if maxDepth ≥ 0 ∧ (currentDepth : Int) ≥ maxDepth then ("", 0, 0)
    else
      match node with
      | .file _ => ("", 0, 0)
      | .dir entries =>
          let valid := (readDirSorted entries).filter
            (fun e => showHidden || !strStartsWith e.1 ".")
          let sorted := sortLE (fun a b => !(treeLess b a)) valid
          let n := sorted.length
          (sorted.enum.map
            (fun (p : Nat × (String × FNode)) =>
              let i := p.1
              let name := p.2.1
              let child := p.2.2
              let isLast := i = n - 1
              let connector := if isLast then "└── " else "├── "
              let line := pref ++ connector ++ colorizeName child.isDir name ++ "\n"
              if child.isDir then
                let newPref := pref ++ (if isLast then "    " else "│   ")
                let r := buildTreeF fuel child newPref showHidden maxDepth
                  (currentDepth + 1)
                (line ++ r.1, 1 + r.2.1, r.2.2)
              else (line, 0, 1))).foldl
            (fun (acc : String × Nat × Nat) r =>
              (acc.1 ++ r.1, acc.2.1 + r.2.1, acc.2.2 + r.2.2)) ("", 0, 0)

/-- Go `buildTree`, with the recursion fuel fixed at the node's weight,
which strictly bounds the subtree depth. -/
def buildTree (node : FNode) (pref : String) (showHidden : Bool)
    (maxDepth : Int) (currentDepth : Nat) : String × Nat × Nat :=
  buildTreeF node.weight node pref showHidden maxDepth currentDepth

/-! ## ls -/

/-- The filtering stage of the `ls` handler on a directory: drop hidden
names unless `-a`, drop ignored entries, sort the remaining names
(`sort.Strings`). -/
def lsVisibleNames (s : Server) (realDir : List String)
    (entries : List (String × FNode)) (showHidden : Bool) : List String :=
  sortLE strLE
    (((readDirSorted entries).filter (fun e =>
      (showHidden || !strStartsWith e.1 ".") &&
        !shouldIgnore s (realDir ++ [e.1]) e.1)).map (fun e => e.1))

/-! ## URL escaping and long-listing helpers -/

/-- Go `urlQueryEscape`: the one-byte replacer over
space/`#`/`?`/`&`/`+`/`%`. -/
def urlQueryEscape (x : String) : String :=
  String.join (x.data.map (fun c =>
    if c = ' ' then "%20"
    else if c = '#' then "%23"
    else if c = '?' then "%3F"
    else if c = '&' then "%26"
    else if c = '+' then "%2B"
    else if c = '%' then "%25"
    else String.mk [c]))

/-- Go `strings.TrimPrefix(x, "/")`. -/
def trimPrefixSlash (x : String) : String :=
  if strStartsWith x "/" then String.mk (x.data.drop 1) else x

/-- Go `urlEscapeVirtual`: escape each segment of the cleaned virtual
path, keeping the slashes. -/
def urlEscapeVirtual (v : String) : String :=
  "/" ++ String.intercalate "/"
    ((splitSlash (trimPrefixSlash (cleanVirtual v))).map urlQueryEscape)

/-- The byte size `os.Stat` reports for a node: the content length for
a regular file; directory sizes are filesystem-dependent and modelled
as `0` (no claim depends on them). -/
def nodeSize : FNode → Nat
  | .file content => byteLen content
  | .dir _ => 0

/-- Go `formatHumanSize`; the `%.1f` float rendering is modelled as a
single rounded decimal digit. -/
def formatHumanSize (size : Nat) : String :=
  let render (num den : Nat) (suffix : String) : String :=
    let tenths := (num * 10 + den / 2) / den
    toString (tenths / 10) ++ "." ++ toString (tenths % 10) ++ suffix
  if size < 1024 then toString size ++ "B"
  else if size < 1024 ^ 2 then render size 1024 "K"
  else if size < 1024 ^ 3 then render size (1024 ^ 2) "M"
  else if size < 1024 ^ 4 then render size (1024 ^ 3) "G"
  else render size (1024 ^ 4) "T"

/-- Go `formatLong`; the mode string and the modification time are OS
metadata outside the model and render as fixed placeholders. -/
def formatLong (size : Nat) (name : String) (humanReadable : Bool) : String :=
  if humanReadable then "(mode) " ++ formatHumanSize size ++ " (mtime) " ++ name
  else "(mode) " ++ toString size ++ " (mtime) " ++ name

/-! ## The command dispatcher (Go `handleExec`)

The response model keeps the `Output` and `Download` fields of Go's
`execResp`, plus the `CWD` field; the `Readme`, `DocType`, `Clipboard`
and `HTML` fields are dropped (no claim concerns them).  Each handler
returns the response paired with the session's current directory after
the command — the Go handlers mutate `sess.cwd`, and only the
successful `cd` branch assigns to it. -/

structure ExecResp where
  output : String := ""
  download : String := ""
  cwd : String := ""
  deriving DecidableEq

/-- The `ls`/`dir` handler. -/
def lsCmd (s : Server) (cwd : String) (argv : List String) : ExecResp × String :=
  let flags := argv.foldl
    (fun (st : Bool × Bool × Bool × String) arg =>
      if strStartsWith arg "-" then
        (st.1 || strContains arg "l", st.2.1 || strContains arg "a",
          st.2.2.1 || strContains arg "h", st.2.2.2)
      else (st.1, st.2.1, st.2.2.1, arg))
    (false, false, false, cwd)
  let long := flags.1
  let showHidden := flags.2.1
  let humanReadable := flags.2.2.1
  let target := flags.2.2.2
  match realFromVirtual s (joinVirtual cwd target) with
  | .error _ => ({ output := "ls: permission denied" }, cwd)
  | .ok realCwd =>
    match statReal s realCwd with
    | none =>
        ({ output := "ls: cannot access '" ++ target ++
            "': No such file or directory" }, cwd)
    | some (.file content) =>
        let nm := colorizeName false (realBase realCwd)
        if long then
          ({ output := formatLong (byteLen content) nm humanReadable }, cwd)
        else ({ output := nm }, cwd)
    | some (.dir entries) =>
        let names := lsVisibleNames s realCwd entries showHidden
        if !long then
          let colored := names.map (fun nm =>
            match statReal s (realCwd ++ [nm]) with
            | none => nm
            | some child => colorizeName child.isDir nm)
          ({ output := String.intercalate "\n" colored }, cwd)
        else
          let longs := names.filterMap (fun nm =>
            match statReal s (realCwd ++ [nm]) with
            | none => none
            | some child =>
                some (formatLong (nodeSize child) (colorizeName child.isDir nm)
                  humanReadable))
          ({ output := String.intercalate "\n" longs }, cwd)

/-- The `cd` handler: only its success branch assigns the session's
current directory.  With zero or several arguments the target stays
`/`. -/
def cdCmd (s : Server) (cwd : String) (argv : List String) : ExecResp × String :=
  let target :=
    match argv with
    | [t] => if t = "" then "/" else t
    | _ => "/"
  let newV := joinVirtual cwd target
  match realFromVirtual s newV with
  | .error _ => ({ output := "cd: permission denied" }, cwd)
  | .ok newReal =>
    match statReal s newReal with
    | none => ({ output := "cd: no such file or directory" }, cwd)
    | some (.file _) => ({ output := "cd: not a directory" }, cwd)
    | some (.dir _) => ({ output := "", cwd := newV }, newV)

/-- The `cat` handler: directories are rejected, over-cap files are
rejected naming size and cap, up to `catMax` bytes are read (a file
within the cap is read whole) and binary content is rejected by the
classifier. -/
def catCmd (s : Server) (cwd : String) (argv : List String) : ExecResp × String :=
  match argv with
  | [] => ({ output := "cat: missing operand" }, cwd)
  | a :: _ =>
    match realFromVirtual s (joinVirtual cwd a) with
    | .error _ => ({ output := "cat: permission denied" }, cwd)
    | .ok rp =>
      match statReal s rp with
      | none => ({ output := "cat: no such file or directory" }, cwd)
      | some (.dir _) => ({ output := "cat: is a directory" }, cwd)
      | some (.file content) =>
        if byteLen content > s.catMax then
          ({ output := "cat: file too large (" ++ toString (byteLen content) ++
              " > limit " ++ toString s.catMax ++ ")" }, cwd)
        else
          let sample := (strBytes content).take s.catMax
          if !looksText sample then
            ({ output := "cat: binary file (skipping)" }, cwd)
          else ({ output := content }, cwd)

/-- The `get`/`rget`/`wget`/`download` handler. -/
def getCmd (s : Server) (cwd : String) (argv : List String) : ExecResp × String :=
  match argv with
  | [] => ({ output := "download: missing operand" }, cwd)
  | pattern :: _ =>
    if strContainsAny pattern "*?[" || pattern = "." then
      match collectFilesForDownload s cwd pattern with
      | .error e => ({ output := "download: " ++ e }, cwd)
      | .ok [] => ({ output := "download: no matching files found" }, cwd)
      | .ok [f] =>
          ({ output := "",
             download := "/api/download?path=" ++ urlEscapeVirtual f.virtualPath },
            cwd)
      | .ok files =>
          ({ output := "Downloading " ++ toString files.length ++
              " files as archive.zip",
             download := "/api/download?pattern=" ++ urlQueryEscape pattern ++
              "&cwd=" ++ urlEscapeVirtual cwd }, cwd)
    else
      let vp := joinVirtual cwd pattern
      match realFromVirtual s vp with
      | .error _ => ({ output := "download: permission denied" }, cwd)
      | .ok rp =>
        match statReal s rp with
        | none => ({ output := "download: no such file" }, cwd)
        | some (.dir _) =>
          (match collectFilesFromDirectory s vp rp with
           | .error e => ({ output := "download: " ++ e }, cwd)
           | .ok [] => ({ output := "download: directory is empty" }, cwd)
           | .ok files =>
               let dirName := realBase rp
               ({ output := "Downloading directory '" ++ dirName ++ "' with " ++
                   toString files.length ++ " files as " ++ dirName ++ ".zip",
                  download := "/api/download?dir=" ++ urlEscapeVirtual vp }, cwd))
        | some (.file _) =>
            ({ output := "", download := "/api/download?path=" ++ urlEscapeVirtual vp },
              cwd)

/-- Decimal-digit run at the front of a character list (the digits
`fmt.Sscanf`'s `%d` consumes); `none` when there is none. -/
def leadingDigits (x : List Char) : Option Nat :=
  let ds := x.takeWhile (fun c => c.isDigit)
  if ds = [] then none
  else some (ds.foldl (fun acc c => acc * 10 + (c.toNat - 48)) 0)

/-- Go `fmt.Sscanf(x, "%d", ...)`: skip leading spaces, optional sign,
at least one digit; trailing input is ignored. -/
def parseGoInt (x : String) : Option Int :=
  let chars := x.data.dropWhile goIsSpace
  match chars with
  | '-' :: rest => (leadingDigits rest).map (fun n => -(n : Int))
  | '+' :: rest => (leadingDigits rest).map (fun n => (n : Int))
  | rest => (leadingDigits rest).map (fun n => (n : Int))

/-- The `tree` handler. -/
def treeCmd (s : Server) (cwd : String) (argv : List String) : ExecResp × String :=
  let st := argv.foldl
    (fun (st : Bool × Int × String) arg =>
      if strStartsWith arg "-" then
        let showHidden := st.1 || strContains arg "a"
        let maxDepth :=
          if strStartsWith arg "-L" && decide (arg.length > 2) then
            match parseGoInt (String.mk (arg.data.drop 2)) with
            | some v => v
            | none => -1
          else st.2.1
        (showHidden, maxDepth, st.2.2)
      else (st.1, st.2.1, joinVirtual cwd arg))
    (false, -1, cwd)
  match realFromVirtual s st.2.2 with
  | .error _ => ({ output := "tree: permission denied" }, cwd)
  | .ok realTarget =>
    match statReal s realTarget with
    | none => ({ output := "tree: no such file or directory" }, cwd)
    | some (.file _) => ({ output := "tree: not a directory" }, cwd)
    | some node =>
        let r := buildTree node "" st.1 st.2.1 0
        ({ output := r.1 ++ "\n" ++ toString r.2.1 ++ " directories, " ++
            toString r.2.2 ++ " files" }, cwd)

/-- The argument loop of the `find` handler: `-name`/`-type` take the
following token; other non-flag tokens set the search path (joined to
the current directory); a trailing `-name`/`-type` without a value, and
any other `-...` token, are ignored. -/
def parseFindArgs (cwd : String) : List String → String → String → String →
    String × String × String
  | [], sp, np, tf => (sp, np, tf)
  | a :: rest, sp, np, tf =>
      if a = "-name" then
        match rest with
        | v :: rest' => parseFindArgs cwd rest' sp v tf
        | [] => (sp, np, tf)
      else if a = "-type" then
        match rest with
        | v :: rest' => parseFindArgs cwd rest' sp np v
        | [] => (sp, np, tf)
      else if !strStartsWith a "-" then
        parseFindArgs cwd rest (joinVirtual cwd a) np tf
      else parseFindArgs cwd rest sp np tf

/-- The `find` handler. -/
def findCmd (s : Server) (cwd : String) (argv : List String) : ExecResp × String :=
  let parsed := parseFindArgs cwd argv cwd "*" ""
  let searchPath := parsed.1
  let namePattern := parsed.2.1
  let typeFilter := parsed.2.2
  if typeFilter ≠ "" && typeFilter ≠ "f" && typeFilter ≠ "d" then
    ({ output := "find: invalid type filter (use 'f' for files or 'd' for directories)" },
      cwd)
  else
    match realFromVirtual s searchPath with
    | .error _ => ({ output := "find: permission denied" }, cwd)
    | .ok realSearchPath =>
      match statReal s realSearchPath with
      | none => ({ output := "find: no such file or directory" }, cwd)
      | some (.file _) => ({ output := "find: not a directory" }, cwd)
      | some node =>
          match findFiles s node realSearchPath searchPath namePattern typeFilter with
          | [] => ({ output := "find: no matches found" }, cwd)
          | results => ({ output := String.intercalate "\n" results }, cwd)

/-- The `url`/`share` handler; the request host and scheme live in the
transport layer outside the model and are fixed to the Go defaults. -/
def urlCmd (s : Server) (cwd : String) (argv : List String) : ExecResp × String :=
  match argv with
  | [] => ({ output := "url: missing file operand" }, cwd)
  | a :: _ =>
    let vp := joinVirtual cwd a
    match realFromVirtual s vp with
    | .error _ => ({ output := "url: permission denied" }, cwd)
    | .ok rp =>
      match statReal s rp with
      | none => ({ output := "url: no such file or directory" }, cwd)
      | some (.dir _) =>
          ({ output := "url: cannot share directories (use 'get' to download as zip)" },
            cwd)
      | some (.file _) =>
        if shouldIgnore s rp (goFilepathBase (renderAbs rp)) then
          ({ output := "url: file is ignored" }, cwd)
        else
          let fileURL := "http://localhost:8080/api/static" ++ vp
          ({ output := "Shareable URL: " ++ fileURL ++ "\n" ++ colorGreen ++
              "URL copied to clipboard!" ++ colorReset }, cwd)

/-- The `grep` handler. -/
def grepCmd (s : Server) (cwd : String) (argv : List String) : ExecResp × String :=
  let st := argv.foldl
    (fun (st : Bool × Bool × Bool × String × List String) arg =>
      if strStartsWith arg "-" then
        (st.1 || strContains arg "r", st.2.1 || strContains arg "i",
          st.2.2.1 || strContains arg "n", st.2.2.2.1, st.2.2.2.2)
      else if st.2.2.2.1 = "" then
        (st.1, st.2.1, st.2.2.1, arg, st.2.2.2.2)
      else (st.1, st.2.1, st.2.2.1, st.2.2.2.1, st.2.2.2.2 ++ [arg]))
    (false, false, false, "", [])
  let recursive := st.1
  let ignoreCase := st.2.1
  let showLineNumbers := st.2.2.1
  let pattern := st.2.2.2.1
  let files0 := st.2.2.2.2
  if pattern = "" then ({ output := "grep: missing pattern" }, cwd)
  else if files0 = [] && !recursive then
    ({ output := "grep: no files specified" }, cwd)
  else
    let files := if files0 = [] then ["."] else files0
    let results := files.flatMap (fun file =>
      let vp := joinVirtual cwd file
      match realFromVirtual s vp with
      | .error _ => ["grep: " ++ file ++ ": permission denied"]
      | .ok rp =>
        match statReal s rp with
        | none => ["grep: " ++ file ++ ": no such file or directory"]
        | some (.dir entries) =>
          if recursive then
            (match grepInDirectory s (.dir entries) rp vp pattern ignoreCase
                showLineNumbers with
             | .ok rs => rs
             | .error e => ["grep: " ++ file ++ ": " ++ e])
          else ["grep: " ++ file ++ ": is a directory"]
        | some (.file content) =>
            match grepInFile content vp pattern ignoreCase showLineNumbers
                (decide (files.length > 1)) with
            | .ok rs => rs
            | .error e => ["grep: " ++ file ++ ": " ++ e])
    if results = [] then ({ output := "grep: no matches found" }, cwd)
    else ({ output := String.intercalate "\n" results }, cwd)

/-- The `sum`/`checksum` handler; the two digests are cryptographic
functions outside the model, rendered as fixed placeholders (the only
modelled aspects are the error paths and that the session directory is
untouched). -/
def sumCmd (s : Server) (cwd : String) (argv : List String) : ExecResp × String :=
  match argv with
  | [] => ({ output := "sum: missing file operand" }, cwd)
  | a :: _ =>
    match realFromVirtual s (joinVirtual cwd a) with
    | .error _ => ({ output := "sum: permission denied" }, cwd)
    | .ok rp =>
      match statReal s rp with
      | none => ({ output := "sum: no such file or directory" }, cwd)
      | some (.dir _) => ({ output := "sum: is a directory" }, cwd)
      | some (.file _) =>
          ({ output := "MD5:    (md5)\nSHA256: (sha256)" }, cwd)

/-- The `stats` handler; log-file parsing is outside the model. -/
def statsCmd (s : Server) (cwd : String) (_argv : List String) :
    ExecResp × String :=
  if s.logfile = "" then
    ({ output := "stats: no log file configured (use -logfile flag)" }, cwd)
  else ({ output := "(stats)" }, cwd)

/-- The dispatch of Go `handleExec` over the command name. -/
def handleCmd (s : Server) (cwd : String) (cmd : String) (argv : List String) :
    ExecResp × String :=
  if cmd = "pwd" then ({ output := cwd, cwd := cwd }, cwd)
  else if cmd = "help" then ({ output := "" }, cwd)
  else if cmd = "ls" ∨ cmd = "dir" then lsCmd s cwd argv
  else if cmd = "cd" then cdCmd s cwd argv
  else if cmd = "cat" then catCmd s cwd argv
  else if cmd = "get" ∨ cmd = "rget" ∨ cmd = "wget" ∨ cmd = "download" then
    getCmd s cwd argv
  else if cmd = "tree" then treeCmd s cwd argv
  else if cmd = "find" then findCmd s cwd argv
  else if cmd = "url" ∨ cmd = "share" then urlCmd s cwd argv
  else if cmd = "grep" then grepCmd s cwd argv
  else if cmd = "sum" ∨ cmd = "checksum" then sumCmd s cwd argv
  else if cmd = "stats" then statsCmd s cwd argv
  else ({ output := "sh: " ++ cmd ++ ": command not found" }, cwd)

/-- Go `handleExec`: trim the input, return an empty response for an
empty line, tokenize and dispatch on the first token.  (When the
tokenizer returns no tokens — possible for input consisting only of an
empty quoted string — the Go code indexes `args[0]` and panics; the
HTTP layer recovers the panic, no response is produced and the session
directory is untouched, which the model renders as an empty response.) -/
def handleExec (s : Server) (cwd : String) (input : String) : ExecResp × String :=
  let line := goTrimSpace input
  if line = "" then ({ output := "" }, cwd)
  else
    match parseArgs line with
    | [] => ({ output := "" }, cwd)
    | cmd :: argv => handleCmd s cwd cmd argv

/-! ## Claim theorems: cat (C4) and download targets (C3) -/

theorem looksText_of_nul {x : List Nat} (h : 0 ∈ x) : looksText x = false := by
  unfold looksText
  rw [if_pos]
  simpa using h

/-- **C4.**  `cat` on a directory is rejected; on a regular file whose
byte size exceeds the cap the output is exactly the error message naming
the size and the cap (no content); on a within-cap file containing a NUL
byte the output is exactly the binary-file message. -/
theorem catCmd_spec (s : Server) (cwd a : String) (rest : List String)
    (rp : List String) (hres : realFromVirtual s (joinVirtual cwd a) = .ok rp) :
    (∀ entries, statReal s rp = some (.dir entries) →
      catCmd s cwd (a :: rest) = ({ output := "cat: is a directory" }, cwd)) ∧
    (∀ content, statReal s rp = some (.file content) →
      byteLen content > s.catMax →
      catCmd s cwd (a :: rest) =
        ({ output := "cat: file too large (" ++ toString (byteLen content) ++
            " > limit " ++ toString s.catMax ++ ")" }, cwd)) ∧
    (∀ content, statReal s rp = some (.file content) →
      byteLen content ≤ s.catMax → 0 ∈ strBytes content →
      catCmd s cwd (a :: rest) =
        ({ output := "cat: binary file (skipping)" }, cwd)) := by
  refine ⟨?_, ?_, ?_⟩
  · intro entries hstat
    simp [catCmd, hres, hstat]
  · intro content hstat hbig
    simp [catCmd, hres, hstat, hbig]
  · intro content hstat hsmall hnul
    have hsample : (strBytes content).take s.catMax = strBytes content :=
      List.take_of_length_le hsmall
    simp [catCmd, hres, hstat, hsample, looksText_of_nul hnul,
      show ¬ byteLen content > s.catMax from by omega]

/-- Witness for C4: a 6-byte file against a 5-byte cap, a NUL-containing
small file, and a directory, under the root `/r`. -/
theorem catCmd_spec_witness :
    (catCmd ⟨["r"], 5, "", .dir [("big.txt", .file "123456"),
        ("nul.bin", .file "a\x00b"), ("d", .dir [])]⟩ "/" ["big.txt"]
      = ({ output := "cat: file too large (6 > limit 5)" }, "/")) ∧
    (catCmd ⟨["r"], 5, "", .dir [("big.txt", .file "123456"),
        ("nul.bin", .file "a\x00b"), ("d", .dir [])]⟩ "/" ["nul.bin"]
      = ({ output := "cat: binary file (skipping)" }, "/")) ∧
    (catCmd ⟨["r"], 5, "", .dir [("big.txt", .file "123456"),
        ("nul.bin", .file "a\x00b"), ("d", .dir [])]⟩ "/" ["d"]
      = ({ output := "cat: is a directory" }, "/")) := by
  refine ⟨?_, ?_, ?_⟩
  · exact (catCmd_spec _ "/" "big.txt" [] ["r", "big.txt"] (by decide)).2.1
      "123456" (by rfl) (by decide)
  · exact (catCmd_spec _ "/" "nul.bin" [] ["r", "nul.bin"] (by decide)).2.2
      "a\x00b" (by rfl) (by decide) (by decide)
  · exact (catCmd_spec _ "/" "d" [] ["r", "d"] (by decide)).1 [] (by rfl)

/-- **C3.**  For a download target with glob metacharacters or `"."`:
an empty collected file set yields the "no matching files" error, a
single file yields a direct `path=` download URL, and two or more files
yield the zip `pattern=&cwd=` download URL. -/
theorem getCmd_pattern_spec (s : Server) (cwd pattern : String)
    (rest : List String)
    (hpat : (strContainsAny pattern "*?[" || pattern = ".") = true) :
    (collectFilesForDownload s cwd pattern = .ok [] →
      getCmd s cwd (pattern :: rest) =
        ({ output := "download: no matching files found" }, cwd)) ∧
    (∀ f, collectFilesForDownload s cwd pattern = .ok [f] →
      getCmd s cwd (pattern :: rest) =
        ({ output := "",
           download := "/api/download?path=" ++ urlEscapeVirtual f.virtualPath },
          cwd)) ∧
    (∀ files, collectFilesForDownload s cwd pattern = .ok files →
      files.length ≥ 2 →
      getCmd s cwd (pattern :: rest) =
        ({ output := "Downloading " ++ toString files.length ++
            " files as archive.zip",
           download := "/api/download?pattern=" ++ urlQueryEscape pattern ++
            "&cwd=" ++ urlEscapeVirtual cwd }, cwd)) := by
  refine ⟨?_, ?_, ?_⟩
  · intro hcol
    simp [getCmd, hpat, hcol]
  · intro f hcol
    simp [getCmd, hpat, hcol]
  · intro files hcol hlen
    match files, hlen with
    | f1 :: f2 :: fs, _ => simp [getCmd, hpat, hcol]

/-- Witness for C3 at `*.txt` over a root holding `a.txt` and `b.txt`:
two matches produce the zip URL. -/
theorem getCmd_pattern_spec_witness :
    getCmd ⟨["r"], 1024, "", .dir [("a.txt", .file "A"), ("b.txt", .file "B")]⟩
        "/" ["*.txt"]
      = ({ output := "Downloading 2 files as archive.zip",
           download := "/api/download?pattern=*.txt&cwd=/" }, "/") := by
  have h := (getCmd_pattern_spec
    ⟨["r"], 1024, "", .dir [("a.txt", .file "A"), ("b.txt", .file "B")]⟩
    "/" "*.txt" [] (by decide)).2.2
    [⟨"/a.txt", ["r", "a.txt"], "a.txt"⟩, ⟨"/b.txt", ["r", "b.txt"], "b.txt"⟩]
    (by decide) (by decide)
  exact h

/-! ## Claim theorem: the session directory frame property (C10) -/

theorem lsCmd_cwd (s : Server) (cwd : String) (argv : List String) :
    (lsCmd s cwd argv).2 = cwd := by
  unfold lsCmd
  dsimp only
  repeat' split
  all_goals rfl

theorem catCmd_cwd (s : Server) (cwd : String) (argv : List String) :
    (catCmd s cwd argv).2 = cwd := by
  unfold catCmd
  dsimp only
  repeat' split
  all_goals rfl

theorem getCmd_cwd (s : Server) (cwd : String) (argv : List String) :
    (getCmd s cwd argv).2 = cwd := by
  unfold getCmd
  dsimp only
  repeat' split
  all_goals rfl

theorem treeCmd_cwd (s : Server) (cwd : String) (argv : List String) :
    (treeCmd s cwd argv).2 = cwd := by
  unfold treeCmd
  dsimp only
  repeat' split
  all_goals rfl

theorem findCmd_cwd (s : Server) (cwd : String) (argv : List String) :
    (findCmd s cwd argv).2 = cwd := by
  unfold findCmd
  dsimp only
  repeat' split
  all_goals rfl

theorem urlCmd_cwd (s : Server) (cwd : String) (argv : List String) :
    (urlCmd s cwd argv).2 = cwd := by
  unfold urlCmd
  dsimp only
  repeat' split
  all_goals rfl

theorem grepCmd_cwd (s : Server) (cwd : String) (argv : List String) :
    (grepCmd s cwd argv).2 = cwd := by
  unfold grepCmd
  dsimp only
  repeat' split
  all_goals rfl

theorem sumCmd_cwd (s : Server) (cwd : String) (argv : List String) :
    (sumCmd s cwd argv).2 = cwd := by
  unfold sumCmd
  repeat' split
  all_goals rfl

theorem statsCmd_cwd (s : Server) (cwd : String) (argv : List String) :
    (statsCmd s cwd argv).2 = cwd := by
  unfold statsCmd
  split
  all_goals rfl

theorem cdCmd_cwd (s : Server) (cwd : String) (argv : List String) :
    (cdCmd s cwd argv).2 =
      (let target :=
        match argv with
        | [t] => if t = "" then "/" else t
        | _ => "/"
       let newV := joinVirtual cwd target
       match realFromVirtual s newV with
       | .ok newReal =>
         (match statReal s newReal with
          | some (.dir _) => newV
          | _ => cwd)
       | .error _ => cwd) := by
  unfold cdCmd
  dsimp only
  split
  · rename_i e heq
    simp [heq]
  · rename_i newReal heq
    split <;> rename_i hstat <;> simp [heq, hstat]

theorem handleCmd_cwd (s : Server) (cwd cmd : String) (argv : List String)
    (hne : cmd ≠ "cd") : (handleCmd s cwd cmd argv).2 = cwd := by
  unfold handleCmd
  by_cases h1 : cmd = "pwd"
  · rw [if_pos h1]
  · rw [if_neg h1]
    by_cases h2 : cmd = "help"
    · rw [if_pos h2]
    · rw [if_neg h2]
      by_cases h3 : cmd = "ls" ∨ cmd = "dir"
      · rw [if_pos h3]
        exact lsCmd_cwd s cwd argv
      · rw [if_neg h3]
        by_cases h4 : cmd = "cd"
        · rw [if_pos h4]
          exact absurd h4 hne
        · rw [if_neg h4]
          by_cases h5 : cmd = "cat"
          · rw [if_pos h5]
            exact catCmd_cwd s cwd argv
          · rw [if_neg h5]
            by_cases h6 : cmd = "get" ∨ cmd = "rget" ∨ cmd = "wget" ∨ cmd = "download"
            · rw [if_pos h6]
              exact getCmd_cwd s cwd argv
            · rw [if_neg h6]
              by_cases h7 : cmd = "tree"
              · rw [if_pos h7]
                exact treeCmd_cwd s cwd argv
              · rw [if_neg h7]
                by_cases h8 : cmd = "find"
                · rw [if_pos h8]
                  exact findCmd_cwd s cwd argv
                · rw [if_neg h8]
                  by_cases h9 : cmd = "url" ∨ cmd = "share"
                  · rw [if_pos h9]
                    exact urlCmd_cwd s cwd argv
                  · rw [if_neg h9]
                    by_cases h10 : cmd = "grep"
                    · rw [if_pos h10]
                      exact grepCmd_cwd s cwd argv
                    · rw [if_neg h10]
                      by_cases h11 : cmd = "sum" ∨ cmd = "checksum"
                      · rw [if_pos h11]
                        exact sumCmd_cwd s cwd argv
                      · rw [if_neg h11]
                        by_cases h12 : cmd = "stats"
                        · rw [if_pos h12]
                          exact statsCmd_cwd s cwd argv
                        · rw [if_neg h12]

/-- **C10.**  Processing any command line whose command name is not
`cd` leaves the session's current directory unchanged; `cd` assigns a
new current directory exactly when its target resolves inside the root
to an existing directory, and a failed `cd` (permission denied, not
found, or not a directory) leaves it unchanged. -/
theorem handleExec_cwd_frame (s : Server) (cwd input : String) :
    ((parseArgs (goTrimSpace input)).head? ≠ some "cd" →
      (handleExec s cwd input).2 = cwd) ∧
    (∀ argv, parseArgs (goTrimSpace input) = "cd" :: argv →
      (handleExec s cwd input).2 =
        (let target :=
          match argv with
          | [t] => if t = "" then "/" else t
          | _ => "/"
         let newV := joinVirtual cwd target
         match realFromVirtual s newV with
         | .ok newReal =>
           (match statReal s newReal with
            | some (.dir _) => newV
            | _ => cwd)
         | .error _ => cwd)) := by
  constructor
  · intro hne
    unfold handleExec
    dsimp only
    split
    · rfl
    · match hargs : parseArgs (goTrimSpace input) with
      | [] => rfl
      | cmd :: argv =>
        rw [hargs] at hne
        exact handleCmd_cwd s cwd cmd argv (by simpa using hne)
  · intro argv hargs
    have hline : ¬ goTrimSpace input = "" := by
      intro h0
      have hpe : parseArgs "" = [] := by decide
      rw [h0, hpe] at hargs
      exact List.noConfusion hargs
    have hexec : handleExec s cwd input = cdCmd s cwd argv := by
      unfold handleExec
      rw [if_neg hline, hargs]
      unfold handleCmd
      rfl
    rw [hexec]
    exact cdCmd_cwd s cwd argv

/-- Witness for C10: `pwd` (not `cd`) leaves the directory unchanged,
and a successful `cd docs` moves to `/docs`. -/
theorem handleExec_cwd_frame_witness :
    (handleExec ⟨["r"], 1024, "", .dir [("docs", .dir [])]⟩ "/" "pwd").2 = "/" ∧
      (handleExec ⟨["r"], 1024, "", .dir [("docs", .dir [])]⟩ "/" "cd docs").2
        = "/docs" := by
  constructor
  · exact (handleExec_cwd_frame ⟨["r"], 1024, "", .dir [("docs", .dir [])]⟩
      "/" "pwd").1 (by decide)
  · have h := (handleExec_cwd_frame ⟨["r"], 1024, "", .dir [("docs", .dir [])]⟩
      "/" "cd docs").2 ["docs"] (by decide)
    exact h.trans (by decide)

/-! ## Claim theorem: grep case-insensitivity and the size cap (C5) -/

theorem listInfix_iff (sub l : List Char) : listInfix sub l = true ↔ sub <:+: l := by
  induction l with
  | nil =>
    simp [listInfix, List.isPrefixOf_iff_prefix]
  | cons c rest ih =>
    simp [listInfix, List.isPrefixOf_iff_prefix, List.infix_cons_iff, ih]

theorem utf8Encode_replicate_a (n : Nat) :
    utf8Encode (List.replicate n 'a') = List.replicate n 97 := by
  induction n with
  | zero => rfl
  | succ k ih =>
    rw [List.replicate_succ, List.replicate_succ]
    show utf8EncodeChar 'a' ++ utf8Encode (List.replicate k 'a') = _
    rw [ih]
    rfl

theorem byteLen_replicate_a (n : Nat) :
    byteLen (String.mk (List.replicate n 'a')) = n := by
  unfold byteLen strBytes
  show (utf8Encode (List.replicate n 'a')).length = n
  rw [utf8Encode_replicate_a]
  simp

/-- **C5.**  In case-insensitive mode a line yields a grep result
exactly when the lowercased line contains the lowercased pattern as a
substring — so the decision is invariant under changing the case of
pattern or line; and a file whose byte size exceeds the fixed 10 MiB
grep cap (independent of the `cat` cap) is rejected before its content
is read, the handler reporting it as `file too large`. -/
theorem grep_spec :
    (∀ (vp pat : String) (nums fname : Bool) (l : String) (k : Nat),
      grepLines vp pat (strToLower pat) true nums fname [l] k ≠ [] ↔
        (strToLower pat).data <:+: (strToLower l).data) ∧
    (∀ (vp : String) (pat₁ pat₂ l₁ l₂ : String) (nums fname : Bool) (k : Nat),
      strToLower pat₁ = strToLower pat₂ → strToLower l₁ = strToLower l₂ →
      (grepLines vp pat₁ (strToLower pat₁) true nums fname [l₁] k ≠ [] ↔
        grepLines vp pat₂ (strToLower pat₂) true nums fname [l₂] k ≠ [])) ∧
    (∀ (content vp pat : String) (ic nums fname : Bool),
      byteLen content > 10 * 1024 * 1024 →
      grepInFile content vp pat ic nums fname = .error "file too large") ∧
    (∀ (s : Server) (cwd pat file : String) (rp : List String)
      (content : String),
      strStartsWith pat "-" = false → pat ≠ "" →
      strStartsWith file "-" = false →
      realFromVirtual s (joinVirtual cwd file) = .ok rp →
      statReal s rp = some (.file content) →
      byteLen content > 10 * 1024 * 1024 →
      grepCmd s cwd [pat, file] =
        ({ output := "grep: " ++ file ++ ": file too large" }, cwd)) := by
  have hline : ∀ (vp pat : String) (nums fname : Bool) (l : String) (k : Nat),
      grepLines vp pat (strToLower pat) true nums fname [l] k ≠ [] ↔
        (strToLower pat).data <:+: (strToLower l).data := by
    intro vp pat nums fname l k
    simp only [grepLines, List.append_nil]
    constructor
    · intro h
      by_cases hc : strContains (strToLower l) (strToLower pat) = true
      · exact (listInfix_iff _ _).mp hc
      · rw [if_neg (by simpa using hc)] at h
        exact absurd rfl h
    · intro h
      rw [if_pos (by exact (listInfix_iff _ _).mpr h)]
      simp
  refine ⟨hline, ?_, ?_, ?_⟩
  · intro vp pat₁ pat₂ l₁ l₂ nums fname k h1 h2
    rw [hline, hline, h1, h2]
  · intro content vp pat ic nums fname hbig
    unfold grepInFile
    rw [if_pos hbig]
  · intro s cwd pat file rp content hpf hpne hff hres hstat hbig
    unfold grepCmd
    simp [hpf, hff, hpne, hres, hstat, grepInFile, hbig, String.intercalate]
    have hgo : String.intercalate.go ("grep: " ++ file ++ ": " ++ "file too large")
        "\n" [] = "grep: " ++ file ++ ": " ++ "file too large" := rfl
    rw [hgo, String.append_assoc,
      show (": " ++ "file too large" : String) = ": file too large" from by decide]

/-- Witness for C5: the per-line equivalence at `pat = "AbC"`,
`l = "xxabcx"`, and the handler-level cap at a file of 10 MiB + 1
bytes. -/
theorem grep_spec_witness :
    (grepLines "/f" "AbC" (strToLower "AbC") true false false ["xxabcx"] 1 ≠ []) ∧
    grepCmd ⟨["r"], 1024, "", .dir
        [("big", .file (String.mk (List.replicate 10485761 'a')))]⟩
        "/" ["AbC", "big"]
      = ({ output := "grep: big: file too large" }, "/") := by
  constructor
  · exact (grep_spec.1 "/f" "AbC" false false "xxabcx" 1).mpr (by decide)
  · exact grep_spec.2.2.2
      ⟨["r"], 1024, "", .dir
        [("big", .file (String.mk (List.replicate 10485761 'a')))]⟩
      "/" "AbC" "big" ["r", "big"]
      (String.mk (List.replicate 10485761 'a'))
      (by decide) (by decide) (by decide) (by rfl) (by rfl)
      (by rw [byteLen_replicate_a]; omega)

/-! ## Claim theorem: find semantics (C6)

`FindVisible s pattern node realPath anc nm c` says that starting from
the directory `node` (whose real path is `realPath`), `findFiles`'s
recursion can descend through the ancestor directories named by `anc` —
each of them neither hidden-skipped, nor ignored, nor failing the
pattern — and reach a directory entry `(nm, c)`.  The conditions on the
final entry itself are stated separately in the characterization. -/

def vjoinMany (vp : String) (names : List String) : String :=
  names.foldl vjoin vp

inductive FindVisible (s : Server) (pattern : String) :
    FNode → List String → List String → String → FNode → Prop
  | base {entries : List (String × FNode)} {rp : List String} {nm : String}
      {c : FNode} (h : (nm, c) ∈ entries) :
      FindVisible s pattern (.dir entries) rp [] nm c
  | step {entries : List (String × FNode)} {rp : List String} {nm : String}
      {c : FNode} {anc : List String} {nm' : String} {c' : FNode}
      (h : (nm, c) ∈ entries)
      (hhid : ¬(strStartsWith nm "." = true ∧ strStartsWith pattern "." = false))
      (hign : shouldIgnore s (rp ++ [nm]) nm = false)
      (hmatch : goMatch pattern nm ≠ none)
      (h2 : FindVisible s pattern c (rp ++ [nm]) anc nm' c') :
      FindVisible s pattern (.dir entries) rp (nm :: anc) nm' c'

theorem FindVisible_isDir {s : Server} {pattern : String} {node : FNode}
    {rp anc : List String} {nm : String} {c : FNode}
    (h : FindVisible s pattern node rp anc nm c) : node.isDir = true := by
  cases h <;> rfl

/-- The type filter test of `findFiles`. -/
def typeOK (typeFilter : String) (c : FNode) : Bool :=
  match typeFilter with
  | "f" => !c.isDir
  | "d" => c.isDir
  | _ => true

theorem findFilesF_mem (s : Server) (pattern typeFilter : String) :
    ∀ (fuel : Nat) (node : FNode) (realPath : List String) (vpath : String)
      (r : String), node.weight ≤ fuel →
      (r ∈ findFilesF s fuel node realPath vpath pattern typeFilter ↔
        ∃ (anc : List String) (nm : String) (c : FNode),
          FindVisible s pattern node realPath anc nm c ∧
          ¬(strStartsWith nm "." = true ∧ strStartsWith pattern "." = false) ∧
          shouldIgnore s (realPath ++ anc ++ [nm]) nm = false ∧
          goMatch pattern nm = some true ∧
          typeOK typeFilter c = true ∧
          r = colorizeName c.isDir (vjoinMany vpath (anc ++ [nm]))) := by
  intro fuel
  induction fuel with
  | zero =>
    intro node rp vp r hw
    have := weight_pos node
    omega
  | succ f ih =>
    intro node rp vp r hw
    match node with
    | .file content =>
      simp only [findFilesF, List.not_mem_nil, false_iff]
      rintro ⟨anc, nm, c, hvis, -⟩
      cases hvis
    | .dir entries =>
      constructor
      · intro hr
        simp only [findFilesF] at hr
        obtain ⟨e, he, hre⟩ := List.mem_flatMap.mp hr
        have hemem : e ∈ entries := (mem_readDirSorted _ _).mp he
        by_cases hhid : (strStartsWith e.1 "." && !strStartsWith pattern ".") = true
        · rw [if_pos hhid] at hre
          cases hre
        · rw [if_neg hhid] at hre
          by_cases hign : shouldIgnore s (rp ++ [e.1]) e.1 = true
          · rw [if_pos hign] at hre
            cases hre
          · rw [if_neg hign] at hre
            match hmatch : goMatch pattern e.1 with
            | none =>
              rw [hmatch] at hre
              cases hre
            | some matched =>
              rw [hmatch] at hre
              dsimp only at hre
              rcases List.mem_append.mp hre with hin | hin
              · by_cases hinc : (matched && typeOK typeFilter e.2) = true
                · rw [if_pos (by simpa [typeOK] using hinc)] at hin
                  have hmt : matched = true := by
                    rcases Bool.and_eq_true .. |>.mp hinc with ⟨h1, -⟩
                    exact h1
                  have hty : typeOK typeFilter e.2 = true := by
                    rcases Bool.and_eq_true .. |>.mp hinc with ⟨-, h2⟩
                    exact h2
                  refine ⟨[], e.1, e.2, FindVisible.base hemem, ?_, ?_, ?_, hty, ?_⟩
                  · simpa using hhid
                  · simpa using hign
                  · rw [hmatch, hmt]
                  · simpa [vjoinMany] using List.mem_singleton.mp hin
                · rw [if_neg (by simpa [typeOK] using hinc)] at hin
                  cases hin
              · by_cases hdir : e.2.isDir = true
                · rw [if_pos hdir] at hin
                  have hwc : e.2.weight ≤ f := by
                    have := weight_lt_of_mem hemem
                    simp [FNode.weight] at this hw
                    omega
                  obtain ⟨anc', nm', c', hvis', hh', hig', hm', hty', hr'⟩ :=
                    (ih e.2 (rp ++ [e.1]) (vjoin vp e.1) r hwc).mp hin
                  refine ⟨e.1 :: anc', nm', c', ?_, hh', ?_, hm', hty', ?_⟩
                  · exact FindVisible.step hemem (by simpa using hhid)
                      (by simpa using hign)
                      (by rw [hmatch]; exact fun hc => Option.noConfusion hc) hvis'
                  · simpa [List.append_assoc] using hig'
                  · simpa [vjoinMany] using hr'
                · rw [if_neg hdir] at hin
                  cases hin
      · rintro ⟨anc, nm, c, hvis, hh, hig, hm, hty, hr⟩
        cases hvis with
        | base hmem =>
          simp only [findFilesF]
          refine List.mem_flatMap.mpr ⟨(nm, c), (mem_readDirSorted _ _).mpr hmem, ?_⟩
          rw [if_neg (by simpa using hh)]
          rw [if_neg (by simpa using hig)]
          rw [hm]
          dsimp only
          refine List.mem_append.mpr (Or.inl ?_)
          rw [if_pos (by simpa [typeOK] using hty)]
          simpa [vjoinMany] using hr
        | step hmem hhid2 hign2 hm2 h2 =>
          rename_i nm0 c0 anc0
          simp only [findFilesF]
          refine List.mem_flatMap.mpr ⟨(nm0, c0), (mem_readDirSorted _ _).mpr hmem, ?_⟩
          rw [if_neg (by simpa using hhid2)]
          rw [if_neg (by simpa using hign2)]
          match hmatch0 : goMatch pattern nm0 with
          | none => exact absurd hmatch0 hm2
          | some m0 =>
            dsimp only
            refine List.mem_append.mpr (Or.inr ?_)
            rw [if_pos (FindVisible_isDir h2)]
            have hwc : c0.weight ≤ f := by
              have := weight_lt_of_mem hmem
              simp [FNode.weight] at this hw
              omega
            refine (ih c0 (rp ++ [nm0]) (vjoin vp nm0) r hwc).mpr
              ⟨anc0, nm, c, h2, hh, ?_, hm, hty, ?_⟩
            · simpa [List.append_assoc] using hig
            · simpa [vjoinMany] using hr

/-- **C6.**  `findFiles` lists exactly the reachable entries that are
not hidden-skipped (hidden names are excluded unless the pattern itself
begins with a dot), not ignored, whose *base name* matches the glob
pattern (the handler's default pattern is `*`), and which pass the type
filter — so with `-type d` every result is a directory and with
`-type f` every result is a file; and the handler rejects any `-type`
value other than `f` or `d` as an argument error. -/
theorem find_spec :
    (∀ (s : Server) (pattern typeFilter : String) (node : FNode)
      (realPath : List String) (vpath r : String),
      r ∈ findFiles s node realPath vpath pattern typeFilter ↔
        ∃ (anc : List String) (nm : String) (c : FNode),
          FindVisible s pattern node realPath anc nm c ∧
          ¬(strStartsWith nm "." = true ∧ strStartsWith pattern "." = false) ∧
          shouldIgnore s (realPath ++ anc ++ [nm]) nm = false ∧
          goMatch pattern nm = some true ∧
          typeOK typeFilter c = true ∧
          r = colorizeName c.isDir (vjoinMany vpath (anc ++ [nm]))) ∧
    (∀ (s : Server) (cwd : String) (argv : List String) (sp np tf : String),
      parseFindArgs cwd argv cwd "*" "" = (sp, np, tf) →
      tf ≠ "" → tf ≠ "f" → tf ≠ "d" →
      findCmd s cwd argv =
        ({ output :=
            "find: invalid type filter (use 'f' for files or 'd' for directories)" },
          cwd)) := by
  constructor
  · intro s pattern typeFilter node realPath vpath r
    exact findFilesF_mem s pattern typeFilter node.weight node realPath vpath r
      (le_refl _)
  · intro s cwd argv sp np tf hparse htf1 htf2 htf3
    unfold findCmd
    dsimp only
    rw [hparse]
    dsimp only
    rw [if_pos (by simp [htf1, htf2, htf3])]

/-- Witness for C6 at `find -type x` (an invalid type filter) on a
one-file root. -/
theorem find_spec_witness :
    findCmd ⟨["r"], 1024, "", .dir [("a.txt", .file "A")]⟩ "/" ["-type", "x"]
      = ({ output :=
            "find: invalid type filter (use 'f' for files or 'd' for directories)" },
          "/") :=
  find_spec.2 ⟨["r"], 1024, "", .dir [("a.txt", .file "A")]⟩ "/" ["-type", "x"]
    "/" "*" "x" (by decide) (by decide) (by decide) (by decide)

/-! ## Ignore-rule propagation and walker soundness (towards C2) -/

/-- A pattern declared in the rule file of `D` that glob-matches the
candidate's name makes that level's test succeed. -/
theorem ignoreMatchAt_of_pattern {s : Server} {D realPath : List String}
    {pattern name : String} (hp : pattern ∈ parseIgnoreFile s D)
    (hm : goMatch pattern name = some true) :
    ignoreMatchAt s D realPath name = true := by
  unfold ignoreMatchAt
  refine List.any_eq_true.mpr ⟨pattern, hp, ?_⟩
  simp [hm]

/-- A proper prefix of a list extended by one element is a prefix of
the unextended list. -/
theorem prefix_of_concat {D l : List String} {a : String}
    (h : D <+: l ++ [a]) (hne : D ≠ l ++ [a]) : D <+: l := by
  rcases h with ⟨t, ht⟩
  match t, ht with
  | [], ht => exact absurd (by simpa using ht) hne
  | b :: t', ht =>
    have hlen : D.length + (b :: t').length = l.length + 1 := by
      have := congrArg List.length ht
      simpa using this
    have hle : D.length ≤ l.length := by
      simp at hlen
      omega
    have hpre : D <+: l ++ [a] := ⟨b :: t', ht⟩
    have h2 := List.prefix_take_iff.mpr ⟨hpre, le_refl _⟩
    rw [List.take_append_of_le_length hle] at h2
    exact h2.trans (List.take_prefix _ _)

/-- The upward walk of `shouldIgnore` tests every prefix of the starting
directory that still lies under the root; a successful test at any such
level makes the whole walk succeed. -/
theorem shouldIgnoreGo_of_level (s : Server) (realPath : List String)
    (name : String) :
    ∀ (rev D : List String), s.rootAbs.isPrefixOf D = true →
      D <+: rev.reverse → ignoreMatchAt s D realPath name = true →
      shouldIgnoreGo s realPath name rev = true := by
  intro rev
  induction rev with
  | nil =>
    intro D hroot hpre hmatch
    have hD : D = [] := List.prefix_nil.mp (by simpa using hpre)
    subst hD
    simp only [shouldIgnoreGo, hroot, hmatch]
    simp
  | cons a rest ih =>
    intro D hroot hpre hmatch
    simp only [shouldIgnoreGo]
    by_cases hDfull : D = (a :: rest).reverse
    · rw [if_neg (by simp [← hDfull, hroot]), ← hDfull, hmatch]
      simp
    · have hpre' : D <+: rest.reverse := by
        have hsplit : (a :: rest).reverse = rest.reverse ++ [a] := by simp
        rw [hsplit] at hpre hDfull
        exact prefix_of_concat hpre hDfull
      have hroot' : s.rootAbs.isPrefixOf (a :: rest).reverse = true := by
        have hD : s.rootAbs <+: D := List.isPrefixOf_iff_prefix.mp hroot
        exact List.isPrefixOf_iff_prefix.mpr (hD.trans hpre)
      rw [if_neg (not_not_intro hroot')]
      by_cases hhere : ignoreMatchAt s (a :: rest).reverse realPath name = true
      · rw [hhere]
        simp
      · rw [Bool.not_eq_true] at hhere
        rw [hhere]
        exact ih D hroot hpre' hmatch

/-- A file whose name matches a pattern declared in the rule file of its
own directory or of any ancestor directory that still lies under the
root is ignored. -/
theorem shouldIgnore_of_declared {s : Server} {D realPath : List String}
    {pattern name : String} (hroot : s.rootAbs.isPrefixOf D = true)
    (hanc : D <+: realPath.dropLast) (hp : pattern ∈ parseIgnoreFile s D)
    (hm : goMatch pattern name = some true) :
    shouldIgnore s realPath name = true := by
  unfold shouldIgnore
  exact shouldIgnoreGo_of_level s realPath name realPath.dropLast.reverse D
    hroot (by simpa using hanc) (ignoreMatchAt_of_pattern hp hm)

/-- Membership in the `ls` handler's visible-name list: exactly the
directory entries that survive the hidden filter and are not ignored. -/
theorem mem_lsVisibleNames (s : Server) (realDir : List String)
    (entries : List (String × FNode)) (showHidden : Bool) (nm : String) :
    nm ∈ lsVisibleNames s realDir entries showHidden ↔
      ∃ c, (nm, c) ∈ entries ∧
        (showHidden = true ∨ strStartsWith nm "." = false) ∧
        shouldIgnore s (realDir ++ [nm]) nm = false := by
  unfold lsVisibleNames
  rw [mem_sortLE]
  rw [List.mem_map]
  constructor
  · rintro ⟨e, he, rfl⟩
    obtain ⟨he1, he2⟩ := List.mem_filter.mp he
    refine ⟨e.2, (mem_readDirSorted _ _).mp he1, ?_, ?_⟩
    · rcases Bool.and_eq_true .. |>.mp he2 with ⟨h1, -⟩
      rcases Bool.or_eq_true .. |>.mp h1 with h | h
      · exact Or.inl h
      · exact Or.inr (by simpa using h)
    · rcases Bool.and_eq_true .. |>.mp he2 with ⟨-, h2⟩
      simpa using h2
  · rintro ⟨c, hmem, hh, hig⟩
    refine ⟨(nm, c), List.mem_filter.mpr ⟨(mem_readDirSorted _ _).mpr hmem, ?_⟩,
      rfl⟩
    refine Bool.and_eq_true .. |>.mpr ⟨?_, by simpa using hig⟩
    rcases hh with h | h
    · exact Bool.or_eq_true .. |>.mpr (Or.inl h)
    · exact Bool.or_eq_true .. |>.mpr (Or.inr (by simpa using h))

/-- Reachability for the `grep -r` walk: a chain of directory entries
from the starting node, each intermediate step neither hidden nor
ignored. -/
inductive GrepVisible (s : Server) :
    FNode → List String → List String → String → FNode → Prop
  | base {entries : List (String × FNode)} {rp : List String} {nm : String}
      {c : FNode} (h : (nm, c) ∈ entries) :
      GrepVisible s (.dir entries) rp [] nm c
  | step {entries : List (String × FNode)} {rp : List String} {nm : String}
      {c : FNode} {anc : List String} {nm' : String} {c' : FNode}
      (h : (nm, c) ∈ entries)
      (hhid : strStartsWith nm "." = false)
      (hign : shouldIgnore s (rp ++ [nm]) nm = false)
      (h2 : GrepVisible s c (rp ++ [nm]) anc nm' c') :
      GrepVisible s (.dir entries) rp (nm :: anc) nm' c'

/-- Soundness of the recursive grep walk: every emitted line comes from
a reachable regular file that is neither hidden nor ignored, via
`grepInFile` on that file's content. -/
theorem grepInDirectoryF_sound (s : Server) (pattern : String)
    (ic sl : Bool) :
    ∀ (fuel : Nat) (node : FNode) (rp : List String) (vp : String)
      (rs : List String) (r : String),
      grepInDirectoryF s pattern ic sl fuel node rp vp = .ok rs → r ∈ rs →
      ∃ (anc : List String) (nm content : String) (rs' : List String),
        GrepVisible s node rp anc nm (.file content) ∧
        strStartsWith nm "." = false ∧
        shouldIgnore s (rp ++ anc ++ [nm]) nm = false ∧
        grepInFile content (vjoinMany vp (anc ++ [nm])) pattern ic sl true
          = .ok rs' ∧ r ∈ rs' := by
  intro fuel
  induction fuel with
  | zero =>
    intro node rp vp rs r hok hr
    simp only [grepInDirectoryF] at hok
    cases hok
    cases hr
  | succ f ih =>
    intro node rp vp rs r hok hr
    match node with
    | .file content =>
      simp only [grepInDirectoryF] at hok
      cases hok
    | .dir entries =>
      simp only [grepInDirectoryF] at hok
      cases hok
      obtain ⟨e, he, hre⟩ := List.mem_flatMap.mp hr
      have hemem : e ∈ entries := (mem_readDirSorted _ _).mp he
      by_cases hhid : strStartsWith e.1 "." = true
      · rw [if_pos hhid] at hre
        cases hre
      · rw [if_neg hhid] at hre
        by_cases hign : shouldIgnore s (rp ++ [e.1]) e.1 = true
        · rw [if_pos hign] at hre
          cases hre
        · rw [if_neg hign] at hre
          match hc : e.2 with
          | .dir entries' =>
            rw [hc] at hre
            dsimp only at hre
            match hok' : grepInDirectoryF s pattern ic sl f (.dir entries')
                (rp ++ [e.1]) (vjoin vp e.1) with
            | .error msg =>
              rw [hok'] at hre
              cases hre
            | .ok rs2 =>
              rw [hok'] at hre
              dsimp only at hre
              obtain ⟨anc', nm', content', rs'', hvis', hh', hig', hgf', hr'⟩ :=
                ih (.dir entries') (rp ++ [e.1]) (vjoin vp e.1) rs2 r hok' hre
              refine ⟨e.1 :: anc', nm', content', rs'',
                GrepVisible.step (hc ▸ hemem) (by simpa using hhid)
                  (by simpa using hign) hvis', hh', ?_, ?_, hr'⟩
              · simpa [List.append_assoc] using hig'
              · simpa [vjoinMany] using hgf'
          | .file content =>
            rw [hc] at hre
            dsimp only at hre
            match hgf : grepInFile content (vjoin vp e.1) pattern ic sl true with
            | .error msg =>
              rw [hgf] at hre
              cases hre
            | .ok rs2 =>
              rw [hgf] at hre
              dsimp only at hre
              refine ⟨[], e.1, content, rs2, GrepVisible.base (hc ▸ hemem),
                by simpa using hhid, ?_, ?_, hre⟩
              · simpa using hign
              · simpa [vjoinMany] using hgf

/-- Soundness of the archive walk: every collected archive item is a
file that is neither ignored nor hidden. -/
theorem walkCollectF_sound (s : Server) (baseDir : String)
    (rootReal : List String) :
    ∀ (fuel : Nat) (node : FNode) (path : List String) (fi : GoFileInfo),
      fi ∈ walkCollectF s baseDir rootReal fuel node path →
      shouldIgnore s fi.realPath (realBase fi.realPath) = false ∧
      strStartsWith (realBase fi.realPath) "." = false := by
  intro fuel
  induction fuel with
  | zero =>
    intro node path fi hmem
    simp only [walkCollectF] at hmem
    cases hmem
  | succ f ih =>
    intro node path fi hmem
    match node with
    | .file content =>
      simp only [walkCollectF] at hmem
      by_cases hign : shouldIgnore s path (realBase path) = true
      · rw [if_pos hign] at hmem
        cases hmem
      · rw [if_neg hign] at hmem
        by_cases hhid : strStartsWith (realBase path) "." = true
        · rw [if_pos hhid] at hmem
          cases hmem
        · rw [if_neg hhid] at hmem
          have hfi : fi = ⟨renderAbs path, path, goJoin baseDir
              (String.intercalate "/" (path.drop rootReal.length))⟩ := by
            simpa using hmem
          subst hfi
          exact ⟨by simpa using hign, by simpa using hhid⟩
    | .dir entries =>
      simp only [walkCollectF] at hmem
      obtain ⟨e, he, hre⟩ := List.mem_flatMap.mp hmem
      exact ih e.2 (path ++ [e.1]) fi hre

/-- A concrete server whose root declares the ignore pattern `*.log`
and holds an ignored file `b.log`, a plain file `a.txt`, and a hidden
file `.h.txt` that no rule matches. -/
def srvC2 : Server :=
  ⟨["r"], 1024, "",
    .dir [(".h.txt", .file "hi"),
          (".lsgetignore", .file "*.log\n"),
          ("a.txt", .file "hello\n"),
          ("b.log", .file "secret\n")]⟩

/-- Counterexample to **C2**.  On `srvC2` the file `b.log` is matched
by the pattern `*.log` declared in its own directory's rule file —
`shouldIgnore` reports it ignored — and yet it appears in the output of
the `tree` handler, because `buildTree` never consults the ignore
rules.  Moreover the file `.h.txt` is matched by no ignore rule, yet it
does not appear in the output of the `ls` handler: hidden files are
dropped without `-a` regardless of the ignore rules.  Both halves of
the claim fail. -/
theorem ignore_spec_counterexample :
    shouldIgnore srvC2 ["r", "b.log"] "b.log" = true ∧
    strContains (treeCmd srvC2 "/" []).1.output "b.log" = true ∧
    shouldIgnore srvC2 ["r", ".h.txt"] ".h.txt" = false ∧
    strContains (lsCmd srvC2 "/" []).1.output ".h.txt" = false := by
  decide

/-- **C2** (amended).  The ignore rules govern `ls`, `find`, `grep -r`
and archive collection, but not `tree`, and only for entries that also
pass the hidden-name filter: (1) a name matched by a pattern declared
in the rule file of any ancestor directory under the root is ignored;
(2) `ls` shows exactly the directory entries that pass the hidden
filter and are not ignored; (3) every `find` result comes from a
reachable entry that is not ignored and matches the pattern, and
(4) conversely every reachable, non-hidden, non-ignored, matching entry
passing the type filter is listed; (5) every `grep -r` line comes from
a reachable regular file that is neither hidden nor ignored; (6) every
archived item is a file that is neither ignored nor hidden.  (`tree` is
deliberately absent: `buildTree` takes no ignore state at all.) -/
theorem ignore_spec :
    (∀ (s : Server) (D realPath : List String) (pattern name : String),
      s.rootAbs.isPrefixOf D = true → D <+: realPath.dropLast →
      pattern ∈ parseIgnoreFile s D → goMatch pattern name = some true →
      shouldIgnore s realPath name = true) ∧
    (∀ (s : Server) (realDir : List String) (entries : List (String × FNode))
      (showHidden : Bool) (nm : String),
      nm ∈ lsVisibleNames s realDir entries showHidden ↔
        ∃ c, (nm, c) ∈ entries ∧
          (showHidden = true ∨ strStartsWith nm "." = false) ∧
          shouldIgnore s (realDir ++ [nm]) nm = false) ∧
    (∀ (s : Server) (node : FNode) (realPath : List String)
      (vpath pattern typeFilter r : String),
      r ∈ findFiles s node realPath vpath pattern typeFilter →
      ∃ (anc : List String) (nm : String) (c : FNode),
        FindVisible s pattern node realPath anc nm c ∧
        shouldIgnore s (realPath ++ anc ++ [nm]) nm = false ∧
        goMatch pattern nm = some true ∧
        r = colorizeName c.isDir (vjoinMany vpath (anc ++ [nm]))) ∧
    (∀ (s : Server) (node : FNode) (realPath : List String)
      (vpath pattern typeFilter : String) (anc : List String) (nm : String)
      (c : FNode),
      FindVisible s pattern node realPath anc nm c →
      ¬(strStartsWith nm "." = true ∧ strStartsWith pattern "." = false) →
      shouldIgnore s (realPath ++ anc ++ [nm]) nm = false →
      goMatch pattern nm = some true → typeOK typeFilter c = true →
      colorizeName c.isDir (vjoinMany vpath (anc ++ [nm])) ∈
        findFiles s node realPath vpath pattern typeFilter) ∧
    (∀ (s : Server) (pattern : String) (ic sl : Bool) (node : FNode)
      (realPath : List String) (vpath : String) (rs : List String)
      (r : String),
      grepInDirectory s node realPath vpath pattern ic sl = .ok rs →
      r ∈ rs →
      ∃ (anc : List String) (nm content : String) (rs' : List String),
        GrepVisible s node realPath anc nm (.file content) ∧
        strStartsWith nm "." = false ∧
        shouldIgnore s (realPath ++ anc ++ [nm]) nm = false ∧
        grepInFile content (vjoinMany vpath (anc ++ [nm])) pattern ic sl true
          = .ok rs' ∧ r ∈ rs') ∧
    (∀ (s : Server) (baseDir : String) (rootReal : List String)
      (node : FNode) (path : List String) (fi : GoFileInfo),
      fi ∈ walkCollect s baseDir rootReal node path →
      shouldIgnore s fi.realPath (realBase fi.realPath) = false ∧
      strStartsWith (realBase fi.realPath) "." = false) := by
  refine ⟨?_, ?_, ?_, ?_, ?_, ?_⟩
  · intro s D realPath pattern name hroot hanc hp hm
    exact shouldIgnore_of_declared hroot hanc hp hm
  · intro s realDir entries showHidden nm
    exact mem_lsVisibleNames s realDir entries showHidden nm
  · intro s node realPath vpath pattern typeFilter r hr
    obtain ⟨anc, nm, c, hvis, hh, hig, hm, hty, hre⟩ :=
      (findFilesF_mem s pattern typeFilter node.weight node realPath vpath r
        (le_refl _)).mp hr
    exact ⟨anc, nm, c, hvis, hig, hm, hre⟩
  · intro s node realPath vpath pattern typeFilter anc nm c hvis hh hig hm hty
    exact (findFilesF_mem s pattern typeFilter node.weight node realPath vpath _
      (le_refl _)).mpr ⟨anc, nm, c, hvis, hh, hig, hm, hty, rfl⟩
  · intro s pattern ic sl node realPath vpath rs r hok hr
    exact grepInDirectoryF_sound s pattern ic sl node.weight node realPath vpath
      rs r hok hr
  · intro s baseDir rootReal node path fi hmem
    exact walkCollectF_sound s baseDir rootReal node.weight node path fi hmem

/-- Witness for the amended C2 at a concrete server: the root's `*.log`
rule reaches a file two levels below the root through the upward walk
of `shouldIgnore`. -/
theorem ignore_spec_witness :
    shouldIgnore srvC2 ["r", "sub", "b.log"] "b.log" = true :=
  ignore_spec.1 srvC2 ["r"] ["r", "sub", "b.log"] "*.log" "b.log"
    (by decide) (by decide) (by decide) (by decide)

end Lsget
